import Mathlib

/-!
# Verification of the bookmark-syncer reconciliation and synchronization engine

A shallow embedding, in Lean 4, of the core of the `bookmark-syncer`
repository: URL normalization and content hashing, the comparator, the
global index, the three-phase reconciler (`smartSync`), the repository's
restore driver, the additive merge, the backup filename scheme, the sync
lock, and the push / smart-sync strategy decision protocols.

JavaScript strings are modelled as `List Char` (`Str`).  JavaScript
truthiness of optional string fields is modelled explicitly: `undefined`
and the empty string are falsy.  SHA-256 (`crypto.subtle.digest` in
`infrastructure/utils/crypto.ts`) is modelled as an injective function of
its input — the hash of `(url, title)` is represented by the pre-image
string `url ++ "|" ++ title` itself, so hash equality coincides with
pre-image equality, which is the collision-freedom assumption the code
relies on.
-/

/-- JavaScript strings, modelled as lists of characters. -/
abbrev Str := List Char

/-- Truthiness of an optional JS string: `undefined` and `""` are falsy. -/
def truthy : Option Str → Bool
  | none => false
  | some s => !s.isEmpty

/-- Whitespace recognized by `String.prototype.trim` (ASCII subset),
expressed on character codes. -/
def isJsSpace (c : Char) : Bool :=
  c.toNat = 32 || c.toNat = 9 || c.toNat = 10 || c.toNat = 13 ||
    c.toNat = 11 || c.toNat = 12

/-- `s.trim()`: remove leading and trailing whitespace. -/
def jsTrim (s : Str) : Str :=
  ((s.dropWhile isJsSpace).reverse.dropWhile isJsSpace).reverse

/-- `s.trim() || ""` applied to an optional string (as in
`matchedLocal.title?.trim() || ""`): `undefined` becomes `""`. -/
def trimOpt : Option Str → Str
  | none => []
  | some s => jsTrim s

/-- ASCII lower-casing of one character, as `String.prototype.toLowerCase`
acts on ASCII. -/
def jsToLower (c : Char) : Char :=
  if 65 ≤ c.toNat ∧ c.toNat ≤ 90 then Char.ofNat (c.toNat + 32) else c

/-- Lower-case a whole string (ASCII). -/
def jsToLowerStr (s : Str) : Str := s.map jsToLower

/-- Decimal rendering of a natural number, as JS `String(n)` /
template-literal interpolation renders a non-negative integer. -/
def toDecStrAux : Nat → Nat → Str
  | 0, _ => []
  | fuel + 1, n =>
    if n < 10 then [Char.ofNat (48 + n)]
    else toDecStrAux fuel (n / 10) ++ [Char.ofNat (48 + n % 10)]

/-- `toDecStr n` renders `n` in decimal; the fuel `n + 1` always
suffices since a number has at most as many digits as its value plus
one. -/
def toDecStr (n : Nat) : Str := toDecStrAux (n + 1) n

/-- `String(n).padStart(2, "0")`. -/
def pad2 (n : Nat) : Str :=
  let s := toDecStr n
  if s.length < 2 then '0' :: s else s

namespace normalizer

/-- `/\/+$/` removal: strip all trailing `'/'` characters. -/
def stripTrailingSlashes (s : Str) : Str :=
  (s.reverse.dropWhile (· = '/')).reverse

/-- The scheme-lower-casing step `replace(/^(https?):\/\//i, ...)`: if the
string starts (case-insensitively) with `https://` or `http://`, lower-case
that prefix; otherwise leave the string unchanged.  The regex is anchored
and greedy, so `https` wins over `http` exactly when the 5th character is
`s` or `S`. -/
def lowerScheme (s : Str) : Str :=
  if jsToLowerStr (s.take 8) = "https://".data then
    jsToLowerStr (s.take 8) ++ s.drop 8
  else if jsToLowerStr (s.take 7) = "http://".data then
    jsToLowerStr (s.take 7) ++ s.drop 7
  else s

/-- `normalizeUrl` from `core/bookmark/normalizer.ts`: empty / missing URL
maps to `""`; otherwise trim, strip trailing slashes, lower-case the
scheme. -/
def normalizeUrl (url : Option Str) : Str :=
  if truthy url then
    lowerScheme (stripTrailingSlashes (jsTrim (url.getD [])))
  else []

end normalizer

/-- `generateHash(url, title)` from `infrastructure/utils/crypto.ts`:
SHA-256 over `` `${url}|${title}` ``, modelled injectively by the digest's
pre-image string (see the header comment). -/
def generateHash (url : Str) (title : Str) : Str :=
  url ++ '|' :: title

example : normalizer.normalizeUrl (some "https://a.com/".data) = "https://a.com".data := by decide
example : normalizer.normalizeUrl (some "HTTPS://A.com".data) = "https://A.com".data := by decide
example : normalizer.normalizeUrl (some "  https://a.com// ".data) = "https://a.com".data := by decide
example : normalizer.normalizeUrl (some "https://a.com /".data) = "https://a.com ".data := by decide
example : normalizer.normalizeUrl none = [] := by decide

/-!
## The bookmark tree data model

`BookmarkNode` from `types.ts`, covering the fields the core engine reads:
`id`, `parentId`, `index`, `title`, `url`, `children`, `hash`,
`folderType`.  `children` is `Option (List BNode)`: a JS `undefined`
children field differs observably from an empty array.
-/

inductive BNode where
  | mk (id parentId : Option Str) (index : Option Nat) (title : Str)
      (url : Option Str) (children : Option (List BNode))
      (hash folderType : Option Str) : BNode

namespace BNode

def id : BNode → Option Str | .mk i _ _ _ _ _ _ _ => i
def parentId : BNode → Option Str | .mk _ p _ _ _ _ _ _ => p
def index : BNode → Option Nat | .mk _ _ ix _ _ _ _ _ => ix
def title : BNode → Str | .mk _ _ _ t _ _ _ _ => t
def url : BNode → Option Str | .mk _ _ _ _ u _ _ _ => u
def children : BNode → Option (List BNode) | .mk _ _ _ _ _ c _ _ => c
def hash : BNode → Option Str | .mk _ _ _ _ _ _ h _ => h
def folderType : BNode → Option Str | .mk _ _ _ _ _ _ _ f => f

end BNode

/-- `FIREFOX_SYSTEM_IDS` from `core/bookmark/types.ts`. -/
def FIREFOX_SYSTEM_IDS : List Str :=
  ["toolbar_____".data, "unfiled_____".data, "menu________".data, "mobile______".data]

/-- `FOLDER_TYPE_TO_FIREFOX_ID` from `core/bookmark/types.ts`. -/
def FOLDER_TYPE_TO_FIREFOX_ID : List (Str × Str) :=
  [("bookmarks-bar".data, "toolbar_____".data),
   ("other".data, "unfiled_____".data),
   ("mobile".data, "mobile______".data)]

/-- `FIREFOX_ID_TO_FOLDER_TYPE` from `core/bookmark/types.ts`. -/
def FIREFOX_ID_TO_FOLDER_TYPE : List (Str × Str) :=
  [("toolbar_____".data, "bookmarks-bar".data),
   ("unfiled_____".data, "other".data),
   ("mobile______".data, "mobile".data)]

/-- Lookup in a JS record literal (`TABLE[key]`); a present value is
always a non-empty string in these tables, hence truthy. -/
def recordGet (table : List (Str × Str)) (k : Str) : Option Str :=
  (table.find? (fun e => e.1 = k)).map (·.2)

/-- `isSystemRootFolder` from `core/bookmark/normalizer.ts`. -/
def isSystemRootFolder (n : BNode) : Bool :=
  if truthy n.url then false
  else if !truthy n.id then false
  else if n.id = some "0".data ∧ n.title = [] then true
  else if n.id = some "root________".data then true
  else if truthy n.folderType then true
  else decide (n.id.getD [] ∈ FIREFOX_SYSTEM_IDS)

/-- `hasCrossBrowserMapping` from `core/bookmark/normalizer.ts`. -/
def hasCrossBrowserMapping (n : BNode) : Bool :=
  if truthy n.folderType ∧ (recordGet FOLDER_TYPE_TO_FIREFOX_ID (n.folderType.getD [])).isSome then
    true
  else if truthy n.id ∧ (recordGet FIREFOX_ID_TO_FOLDER_TYPE (n.id.getD [])).isSome then
    true
  else false

/-- `findMatchingSystemFolder` from `core/bookmark/normalizer.ts`. -/
def findMatchingSystemFolder (backupNode : BNode) (localFolders : List BNode) :
    Option BNode :=
  let byFolderType :=
    if truthy backupNode.folderType then
      match localFolders.find? (fun l => l.folderType = backupNode.folderType) with
      | some m => some m
      | none =>
        match recordGet FOLDER_TYPE_TO_FIREFOX_ID (backupNode.folderType.getD []) with
        | some firefoxId => localFolders.find? (fun l => l.id = some firefoxId)
        | none => none
    else none
  match byFolderType with
  | some m => some m
  | none =>
    let byFirefoxId :=
      if truthy backupNode.id then
        match recordGet FIREFOX_ID_TO_FOLDER_TYPE (backupNode.id.getD []) with
        | some mappedType =>
          match localFolders.find? (fun l => l.folderType = some mappedType) with
          | some m => some m
          | none => localFolders.find? (fun l => l.id = backupNode.id)
        | none => none
      else none
    match byFirefoxId with
    | some m => some m
    | none => localFolders.find? (fun l => l.title = backupNode.title)

/-- `countBookmarks` from the comparator module: count nodes with a truthy
`url`, recursing into non-empty children. -/
def countBookmarksNode : BNode → Nat
  | .mk _ _ _ _ url (some cs) _ _ =>
      (if truthy url then 1 else 0) + (if cs.length > 0 then countList cs else 0)
  | .mk _ _ _ _ url none _ _ => if truthy url then 1 else 0
where countList : List BNode → Nat
  | [] => 0
  | n :: rest => countBookmarksNode n + countList rest

def countBookmarks (nodes : List BNode) : Nat := countBookmarksNode.countList nodes

/-- The signature a single node contributes in
`extractSignaturesWithHash`: `"B|" ++ hash` for a bookmark carrying a
hash, `"F|" ++ title.trim() ++ "|" ++ childCount` for a folder, nothing
for a bookmark without a hash, and nothing for a system root. -/
def sigOf (n : BNode) : List Str :=
  if isSystemRootFolder n then []
  else if truthy n.url then
    if truthy n.hash then ['B' :: '|' :: n.hash.getD []] else []
  else
    ['F' :: '|' :: (jsTrim n.title ++ '|' ::
      toDecStr ((n.children.getD []).length))]

/-- `extractSignaturesWithHash` from the comparator module: DFS pre-order
emission of `sigOf`, recursing into non-empty children (system roots are
skipped as signatures but their children are still traversed). -/
def extractSigsNode : BNode → List Str
  | n@(.mk _ _ _ _ _ (some cs) _ _) =>
      sigOf n ++ (if cs.length > 0 then sigsList cs else [])
  | n@(.mk _ _ _ _ _ none _ _) => sigOf n
where sigsList : List BNode → List Str
  | [] => []
  | c :: rest => extractSigsNode c ++ sigsList rest

def extractSignaturesWithHash (nodes : List BNode) : List Str :=
  extractSigsNode.sigsList nodes

/-- `assignHashToNode` from `core/bookmark/hash-calculator.ts`: rebuild a
minimized node keeping `title` and `url`, keeping `id` / `folderType` only
for system roots, computing the content hash for bookmarks, and recursing
into a present `children` array. -/
def assignHashToNode : BNode → BNode
  | n@(.mk nid _ _ title url (some cs) _ ft) =>
      .mk (if isSystemRootFolder n then nid else none) none none title url
        (some (assignHashList cs))
        (if truthy url then some (generateHash (normalizer.normalizeUrl url) title) else none)
        (if isSystemRootFolder n then ft else none)
  | n@(.mk nid _ _ title url none _ ft) =>
      .mk (if isSystemRootFolder n then nid else none) none none title url
        none
        (if truthy url then some (generateHash (normalizer.normalizeUrl url) title) else none)
        (if isSystemRootFolder n then ft else none)
where assignHashList : List BNode → List BNode
  | [] => []
  | c :: rest => assignHashToNode c :: assignHashList rest

/-- `assignHashes` from `core/bookmark/hash-calculator.ts`. -/
def assignHashes (nodes : List BNode) : List BNode :=
  assignHashToNode.assignHashList nodes

/-- `compareWithCloud` from the comparator module, on the underlying
trees: normalize the local tree with `assignHashes`, extract both
signature sequences, and require equal length and position-by-position
equality — which for lists is exactly list equality. -/
def compareWithCloud (localTree cloudTree : List BNode) : Bool :=
  extractSignaturesWithHash (assignHashes localTree) ==
    extractSignaturesWithHash cloudTree

/-!
## Forest induction

A reusable induction principle for forests of `BNode`s, proved by strong
induction on `sizeOf`.
-/

theorem bnode_forest_induction (P : List BNode → Prop) (hnil : P [])
    (hcons : ∀ (i p : Option Str) (ix : Option Nat) (t : Str) (u : Option Str)
      (cs : Option (List BNode)) (h f : Option Str) (rest : List BNode),
      P (cs.getD []) → P rest → P (BNode.mk i p ix t u cs h f :: rest)) :
    ∀ l, P l := by
  have hpos : ∀ l : List BNode, 1 ≤ sizeOf l := by
    intro l
    cases l with
    | nil => simp
    | cons a rest => simp; omega
  have key : ∀ (n : Nat) (l : List BNode), sizeOf l ≤ n → P l := by
    intro n
    induction n with
    | zero =>
      intro l hl
      cases l with
      | nil => exact hnil
      | cons a rest => simp at hl
    | succ n ih =>
      intro l hl
      match l with
      | [] => exact hnil
      | BNode.mk i p ix t u cs h f :: rest =>
        have hsz : sizeOf (BNode.mk i p ix t u cs h f :: rest) =
            1 + sizeOf (BNode.mk i p ix t u cs h f) + sizeOf rest := by simp
        have hrest : 1 ≤ sizeOf rest := hpos rest
        apply hcons
        · apply ih
          cases cs with
          | none =>
            have : 1 ≤ sizeOf (BNode.mk i p ix t u none h f) := by simp; omega
            simp only [Option.getD]
            have hd : sizeOf ([] : List BNode) = 1 := by simp
            omega
          | some cs' =>
            have hnode : sizeOf (BNode.mk i p ix t u (some cs') h f) =
                1 + sizeOf i + sizeOf p + sizeOf ix + sizeOf t + sizeOf u +
                  (1 + sizeOf cs') + sizeOf h + sizeOf f := by simp
            simp only [Option.getD]
            omega
        · apply ih
          have : 1 ≤ sizeOf (BNode.mk i p ix t u cs h f) := by
            cases cs <;> simp <;> omega
          omega
  intro l
  exact key (sizeOf l) l (le_refl _)

/-!
## Comparator reflexivity (C2)
-/

/-- A forest is hash-consistent when every bookmark node carries exactly
the content hash `assignHashes` would compute for it (`generateHash` over
normalized URL and title).  Trees produced by `assignHashes` — in
particular every remote snapshot written by `createCloudBackup` — are
hash-consistent. -/
def hashConsistentNode : BNode → Bool
  | .mk _ _ _ t u (some cs) h _ =>
      (!truthy u || (h == some (generateHash (normalizer.normalizeUrl u) t)))
        && hcList cs
  | .mk _ _ _ t u none h _ =>
      !truthy u || (h == some (generateHash (normalizer.normalizeUrl u) t))
where hcList : List BNode → Bool
  | [] => true
  | n :: rest => hashConsistentNode n && hcList rest

def hashConsistent (l : List BNode) : Bool := hashConsistentNode.hcList l

theorem generateHash_ne_nil (u t : Str) : generateHash u t ≠ [] := by
  cases u <;> simp [generateHash]

theorem isSystemRootFolder_fields (i p p' : Option Str) (ix ix' : Option Nat)
    (t : Str) (u : Option Str) (cs cs' : Option (List BNode)) (h h' f : Option Str) :
    isSystemRootFolder (BNode.mk i p ix t u cs h f) =
      isSystemRootFolder (BNode.mk i p' ix' t u cs' h' f) := by
  simp [isSystemRootFolder, BNode.id, BNode.url, BNode.title, BNode.folderType]

theorem isSystemRootFolder_assign (n : BNode) :
    isSystemRootFolder (assignHashToNode n) = isSystemRootFolder n := by
  cases n with
  | mk i p ix t u cs h f =>
    by_cases hs : isSystemRootFolder (BNode.mk i p ix t u cs h f) = true
    · cases cs <;>
        simp only [assignHashToNode, hs, if_true, if_pos] <;>
        rw [← hs] <;>
        exact isSystemRootFolder_fields ..
    · replace hs : isSystemRootFolder (BNode.mk i p ix t u cs h f) = false :=
        Bool.eq_false_iff.mpr hs
      cases cs <;>
        simp only [assignHashToNode, hs, Bool.false_eq_true, if_false] <;>
        simp [isSystemRootFolder, BNode.id, BNode.url, truthy, hs]

theorem assignHashList_length (l : List BNode) :
    (assignHashToNode.assignHashList l).length = l.length := by
  induction l with
  | nil => simp [assignHashToNode.assignHashList]
  | cons c rest ih => simp [assignHashToNode.assignHashList, ih]

theorem isSystemRootFolder_truthy_url (i p : Option Str) (ix : Option Nat)
    (t : Str) (u : Option Str) (cs : Option (List BNode)) (h f : Option Str)
    (hu : truthy u = true) :
    isSystemRootFolder (BNode.mk i p ix t u cs h f) = false := by
  simp [isSystemRootFolder, BNode.url, hu]

theorem isSystemRootFolder_id_none (p : Option Str) (ix : Option Nat) (t : Str)
    (u : Option Str) (cs : Option (List BNode)) (h : Option Str) :
    isSystemRootFolder (BNode.mk none p ix t u cs h none) = false := by
  simp [isSystemRootFolder, BNode.url, BNode.id, truthy]

theorem truthy_generateHash (u t : Str) : truthy (some (generateHash u t)) = true := by
  cases u <;> simp [truthy, generateHash]

theorem sigOf_assign (n : BNode)
    (hc : truthy n.url = true →
      n.hash = some (generateHash (normalizer.normalizeUrl n.url) n.title)) :
    sigOf (assignHashToNode n) = sigOf n := by
  cases n with
  | mk i p ix t u cs h f =>
    by_cases hu : truthy u = true
    · have hh := hc (by simpa [BNode.url] using hu)
      simp only [BNode.url, BNode.hash, BNode.title] at hh
      subst hh
      cases cs <;>
        simp [sigOf, assignHashToNode, hu, isSystemRootFolder_truthy_url,
          truthy_generateHash, BNode.url, BNode.hash, BNode.title, BNode.children]
    · replace hu : truthy u = false := Bool.eq_false_iff.mpr hu
      by_cases hs : isSystemRootFolder (BNode.mk i p ix t u cs h f) = true
      · cases cs with
        | none =>
          have e : isSystemRootFolder (BNode.mk i none none t u none none f) =
              isSystemRootFolder (BNode.mk i p ix t u none h f) :=
            isSystemRootFolder_fields ..
          simp only [assignHashToNode, hs, if_true, hu, Bool.false_eq_true, if_false]
          simp only [sigOf, e, hs, if_true]
        | some cs' =>
          have e : isSystemRootFolder
                (BNode.mk i none none t u (some (assignHashToNode.assignHashList cs')) none f) =
              isSystemRootFolder (BNode.mk i p ix t u (some cs') h f) :=
            isSystemRootFolder_fields ..
          simp only [assignHashToNode, hs, if_true, hu, Bool.false_eq_true, if_false]
          simp only [sigOf, e, hs, if_true]
      · replace hs : isSystemRootFolder (BNode.mk i p ix t u cs h f) = false :=
          Bool.eq_false_iff.mpr hs
        cases cs with
        | none =>
          simp only [assignHashToNode, hs, Bool.false_eq_true, if_false, hu]
          simp [sigOf, isSystemRootFolder_id_none, hs, hu, BNode.url, BNode.title,
            BNode.children]
        | some cs' =>
          simp only [assignHashToNode, hs, Bool.false_eq_true, if_false, hu]
          simp [sigOf, isSystemRootFolder_id_none, hs, hu, BNode.url, BNode.title,
            BNode.children, assignHashList_length]

theorem extract_cons (n : BNode) (rest : List BNode) :
    extractSignaturesWithHash (n :: rest) =
      extractSigsNode n ++ extractSignaturesWithHash rest := by
  simp [extractSignaturesWithHash, extractSigsNode.sigsList]

theorem extractSigsNode_eq (n : BNode) :
    extractSigsNode n = sigOf n ++
      (match n.children with
       | some cs => if cs.length > 0 then extractSignaturesWithHash cs else []
       | none => []) := by
  cases n with
  | mk i p ix t u cs h f =>
    cases cs <;> simp [extractSigsNode, extractSignaturesWithHash, BNode.children]

theorem extract_assignHashes : ∀ l : List BNode, hashConsistent l = true →
    extractSignaturesWithHash (assignHashes l) = extractSignaturesWithHash l := by
  apply bnode_forest_induction
    (P := fun l => hashConsistent l = true →
      extractSignaturesWithHash (assignHashes l) = extractSignaturesWithHash l)
  · intro _
    simp [assignHashes, assignHashToNode.assignHashList]
  · intro i p ix t u cs h f rest ih1 ih2 hc
    rw [show hashConsistent (BNode.mk i p ix t u cs h f :: rest) =
          (hashConsistentNode (BNode.mk i p ix t u cs h f) && hashConsistent rest) from by
        simp [hashConsistent, hashConsistentNode.hcList], Bool.and_eq_true] at hc
    obtain ⟨hn, h3⟩ := hc
    rw [show assignHashes (BNode.mk i p ix t u cs h f :: rest) =
          assignHashToNode (BNode.mk i p ix t u cs h f) :: assignHashes rest from by
        simp [assignHashes, assignHashToNode.assignHashList]]
    rw [extract_cons, extract_cons, ih2 h3]
    have hhead : extractSigsNode (assignHashToNode (BNode.mk i p ix t u cs h f)) =
        extractSigsNode (BNode.mk i p ix t u cs h f) := by
      cases cs with
      | none =>
        have hcond : (!truthy u ||
            (h == some (generateHash (normalizer.normalizeUrl u) t))) = true := by
          simpa [hashConsistentNode] using hn
        have hsig := sigOf_assign (BNode.mk i p ix t u none h f) (by
          intro hu
          simp only [BNode.url] at hu
          simp only [BNode.hash, BNode.url, BNode.title]
          rw [hu] at hcond
          simpa using hcond)
        have hch : (assignHashToNode (BNode.mk i p ix t u none h f)).children = none := by
          simp [assignHashToNode, BNode.children]
        rw [extractSigsNode_eq, extractSigsNode_eq, hsig, hch]
        simp [BNode.children]
      | some cs' =>
        have hand : (!truthy u ||
            (h == some (generateHash (normalizer.normalizeUrl u) t))) = true ∧
            hashConsistent cs' = true := by
          simpa [hashConsistentNode, hashConsistent, Bool.and_eq_true] using hn
        obtain ⟨hcond, h2⟩ := hand
        have hsig := sigOf_assign (BNode.mk i p ix t u (some cs') h f) (by
          intro hu
          simp only [BNode.url] at hu
          simp only [BNode.hash, BNode.url, BNode.title]
          rw [hu] at hcond
          simpa using hcond)
        have hch : (assignHashToNode (BNode.mk i p ix t u (some cs') h f)).children =
            some (assignHashToNode.assignHashList cs') := by
          simp [assignHashToNode, BNode.children]
        have ihcs : extractSignaturesWithHash (assignHashToNode.assignHashList cs') =
            extractSignaturesWithHash cs' := by
          have := ih1 (by simpa using h2)
          simpa [assignHashes] using this
        rw [extractSigsNode_eq, extractSigsNode_eq, hsig, hch]
        simp only [BNode.children, assignHashList_length, ihcs]
    rw [hhead]

/-- A single-bookmark tree with no `hash` field, as the local browser tree
delivers it: the comparator's cloud side emits no signature for it. -/
def c2NoHashTree : List BNode :=
  [BNode.mk (some "10".data) (some "1".data) (some 0) "A".data
    (some "https://a.com".data) none none none]

/-- C2 counterexample: `compare(T, T)` is `false` for a tree `T` holding
one bookmark without a `hash` field — the local side is re-hashed by
`assignHashes` and emits a `B|…` signature, while the cloud side's
`node.url && node.hash` guard emits nothing, so the signature counts (1
vs 0) differ. -/
theorem c2_counterexample : compareWithCloud c2NoHashTree c2NoHashTree = false := by
  decide

/-- C2 (amended): comparator reflexivity holds for every hash-consistent
tree — every tree whose bookmarks all carry the content hash that
`assignHashes` computes (`generateHash` of normalized URL and title), as
is the case for every tree in a remote snapshot.  For such `T`,
`compareWithCloud (T, T) = true`. -/
theorem c2_compare_reflexive (T : List BNode) (hT : hashConsistent T = true) :
    compareWithCloud T T = true := by
  simp [compareWithCloud, extract_assignHashes T hT]

/-- A single-bookmark tree carrying its correct content hash. -/
def c2HashedTree : List BNode :=
  [BNode.mk (some "10".data) (some "1".data) (some 0) "A".data
    (some "https://a.com".data) none (some "https://a.com|A".data) none]

/-- Witness for `c2_compare_reflexive` at a concrete hash-consistent tree. -/
theorem c2_compare_reflexive_witness :
    hashConsistent c2HashedTree = true ∧ compareWithCloud c2HashedTree c2HashedTree = true := by
  have hc : hashConsistent c2HashedTree = true := by decide
  exact ⟨hc, c2_compare_reflexive c2HashedTree hc⟩

/-!
## Trailing-slash normalization (C8)
-/

theorem jsTrim_append_slashes (u : Str) (k : Nat) (hu : jsTrim u = u) (hk : 1 ≤ k) :
    jsTrim (u ++ List.replicate k '/') = u ++ List.replicate k '/' := by
  have hlead : u.dropWhile isJsSpace = u := by
    have hsuffix : u.dropWhile isJsSpace <:+ u := List.dropWhile_suffix _
    have h1 : (u.dropWhile isJsSpace).length ≤ u.length := hsuffix.length_le
    have hsfx2 : ((u.dropWhile isJsSpace).reverse.dropWhile isJsSpace) <:+
        (u.dropWhile isJsSpace).reverse := List.dropWhile_suffix _
    have h2 : ((u.dropWhile isJsSpace).reverse.dropWhile isJsSpace).length ≤
        (u.dropWhile isJsSpace).length := by
      simpa using hsfx2.length_le
    have hlen : (jsTrim u).length = u.length := by rw [hu]
    simp only [jsTrim, List.length_reverse] at hlen
    exact hsuffix.eq_of_length (by omega)
  obtain ⟨k', rfl⟩ : ∃ k', k = k' + 1 := ⟨k - 1, by omega⟩
  have hslash : ¬isJsSpace '/' = true := by decide
  have hdrop1 : List.dropWhile isJsSpace (u ++ List.replicate (k' + 1) '/') =
      u ++ List.replicate (k' + 1) '/' := by
    rw [List.dropWhile_append, hlead]
    cases u with
    | nil => simp [List.replicate_succ, List.dropWhile_cons_of_neg hslash]
    | cons c u2 => simp
  have hdrop2 : List.dropWhile isJsSpace ((u ++ List.replicate (k' + 1) '/').reverse) =
      (u ++ List.replicate (k' + 1) '/').reverse := by
    rw [List.reverse_append, List.reverse_replicate, List.replicate_succ,
      List.cons_append, List.dropWhile_cons_of_neg hslash]
  unfold jsTrim
  rw [hdrop1, hdrop2, List.reverse_reverse]

theorem stripTrailingSlashes_append (u : Str) (k : Nat) :
    normalizer.stripTrailingSlashes (u ++ List.replicate k '/') =
      normalizer.stripTrailingSlashes u := by
  unfold normalizer.stripTrailingSlashes
  rw [List.reverse_append, List.reverse_replicate]
  congr 1
  induction k with
  | zero => simp
  | succ k ih =>
    rw [List.replicate_succ, List.cons_append, List.dropWhile_cons_of_pos (by decide)]
    exact ih

theorem normalizeUrl_some_of_ne_nil (s : Str) (hs : s ≠ []) :
    normalizer.normalizeUrl (some s) =
      normalizer.lowerScheme (normalizer.stripTrailingSlashes (jsTrim s)) := by
  simp [normalizer.normalizeUrl, truthy, List.isEmpty_iff, hs]

/-- For trim-clean `u` and `k ≥ 1`, `normalizeUrl` maps `u` followed by
`k` trailing slashes and `u` itself to the same string. -/
theorem normalizeUrl_append_slashes (u : Str) (k : Nat) (hu : jsTrim u = u) (hk : 1 ≤ k) :
    normalizer.normalizeUrl (some (u ++ List.replicate k '/')) =
      normalizer.normalizeUrl (some u) := by
  have hne : (u ++ List.replicate k '/') ≠ [] := by
    cases u with
    | nil =>
      obtain ⟨k', rfl⟩ : ∃ k', k = k' + 1 := ⟨k - 1, by omega⟩
      simp [List.replicate_succ]
    | cons c u2 => simp
  rw [normalizeUrl_some_of_ne_nil _ hne, jsTrim_append_slashes u k hu hk,
    stripTrailingSlashes_append u k]
  cases u with
  | nil => decide
  | cons c u2 =>
    rw [normalizeUrl_some_of_ne_nil _ (by simp), hu]

/-- The C8 hash-identity, general form: for trim-clean `u` and any title
`t`, the bookmark with URL `u` and the bookmark with `u` plus `k ≥ 1`
trailing slashes receive the same content hash. -/
theorem generateHash_append_slashes (u : Str) (t : Str) (k : Nat)
    (hu : jsTrim u = u) (hk : 1 ≤ k) :
    generateHash (normalizer.normalizeUrl (some (u ++ List.replicate k '/'))) t =
      generateHash (normalizer.normalizeUrl (some u)) t := by
  rw [normalizeUrl_append_slashes u k hu hk]

/-!
## The Global Index (`buildGlobalIndex` in the merger module)

JS `Map`s are modelled as association lists with `Map.set` semantics:
setting an existing key replaces its value in place, setting a fresh key
appends.
-/

def jsSet {β : Type} (m : List (Str × β)) (k : Str) (v : β) : List (Str × β) :=
  if m.any (fun e => e.1 = k) then m.map (fun e => if e.1 = k then (k, v) else e)
  else m ++ [(k, v)]

def jsGet {β : Type} (m : List (Str × β)) (k : Str) : Option β :=
  (m.find? (fun e => decide (e.1 = k))).map (·.2)

/-- `NodeLocation` from `core/bookmark/types.ts`. -/
structure NodeLocation where
  id : Option Str
  hash : Option Str
  parentId : Str
  index : Nat
  title : Str
  url : Option Str
  isFolder : Bool
deriving Repr

/-- `BookmarkLocation` from `core/bookmark/types.ts`. -/
structure BookmarkLocation where
  id : Option Str
  hash : Option Str
  parentId : Str
  index : Nat
  title : Str
  url : Str
deriving Repr

/-- `FolderLocation` from `core/bookmark/types.ts`. -/
structure FolderLocation where
  id : Option Str
  parentId : Str
  index : Nat
  title : Str
  path : Str
deriving Repr

instance : Inhabited NodeLocation := ⟨⟨none, none, [], 0, [], none, false⟩⟩
instance : Inhabited BookmarkLocation := ⟨⟨none, none, [], 0, [], []⟩⟩
instance : Inhabited FolderLocation := ⟨⟨none, [], 0, [], []⟩⟩

/-- `GlobalIndex` from `core/bookmark/types.ts`. -/
structure GlobalIndex where
  hashToNode : List (Str × NodeLocation)
  urlToBookmarks : List (Str × List BookmarkLocation)
  pathToFolder : List (Str × FolderLocation)
  idToPath : List (Str × Str)

/-- The `BookmarkInfo` records collected in `buildGlobalIndex`'s first
pass. -/
structure BookmarkInfo where
  node : BNode
  normalizedUrl : Str
  parentId : Str
  index : Nat

/-- The `FolderInfo` records collected in `buildGlobalIndex`'s first
pass. -/
structure FolderInfo where
  node : BNode
  path : Str
  parentId : Str
  index : Nat

/-- The `collect` pass of `buildGlobalIndex`: one DFS gathering bookmark
and folder records.  `currentPath` is `parentPath/title` when the parent
path is non-empty (JS truthiness of the path string), else `title`;
children of system roots restart from the empty path; bookmarks do not
have their children visited (`else if`). -/
def collectNode (parentPath : Str) : BNode → List BookmarkInfo × List FolderInfo
  | n@(.mk _ pid ix _ u cs _ _) =>
    let currentPath : Str :=
      if parentPath.isEmpty then n.title else parentPath ++ '/' :: n.title
    if truthy u then
      ([⟨n, normalizer.normalizeUrl u, pid.getD [], ix.getD 0⟩], [])
    else
      match cs with
      | some cs2 =>
        let own : List FolderInfo :=
          if isSystemRootFolder n then [] else [⟨n, currentPath, pid.getD [], ix.getD 0⟩]
        let sub := collectList (if isSystemRootFolder n then [] else currentPath) cs2
        (sub.1, own ++ sub.2)
      | none => ([], [])
where collectList (parentPath : Str) : List BNode → List BookmarkInfo × List FolderInfo
  | [] => ([], [])
  | c :: rest =>
    let hd := collectNode parentPath c
    let tl := collectList parentPath rest
    (hd.1 ++ tl.1, hd.2 ++ tl.2)

def collectInfos (parentPath : Str) (nodes : List BNode) :
    List BookmarkInfo × List FolderInfo :=
  collectNode.collectList parentPath nodes

/-- `buildGlobalIndex` from the merger module: collect, hash, then fold
the four maps in collection order. -/
def buildGlobalIndex (tree : List BNode) : GlobalIndex :=
  let infos := collectInfos [] tree
  let bks := infos.1
  let fds := infos.2
  { hashToNode := bks.foldl (fun m b =>
      jsSet m (generateHash b.normalizedUrl b.node.title)
        ⟨b.node.id, some (generateHash b.normalizedUrl b.node.title), b.parentId,
          b.index, b.node.title, some b.normalizedUrl, false⟩) []
    urlToBookmarks := bks.foldl (fun m b =>
      jsSet m b.normalizedUrl ((jsGet m b.normalizedUrl).getD [] ++
        [⟨b.node.id, some (generateHash b.normalizedUrl b.node.title), b.parentId,
          b.index, b.node.title, b.normalizedUrl⟩])) []
    pathToFolder := fds.foldl (fun m fo =>
      jsSet m fo.path ⟨fo.node.id, fo.parentId, fo.index, fo.node.title, fo.path⟩) []
    idToPath := fds.foldl (fun m fo =>
      if truthy fo.node.id then jsSet m (fo.node.id.getD []) fo.path else m) [] }

/-- `findNodeByHash` from the merger module. -/
def findNodeByHash (h : Str) (localIndex : GlobalIndex) (localChildren : List BNode)
    (processed : List Str) : Option BNode :=
  match jsGet localIndex.hashToNode h with
  | none => none
  | some hm =>
    if !truthy hm.id || processed.contains (hm.id.getD []) then none
    else
      match localChildren.find? (fun l => l.id = hm.id) with
      | some ln => some ln
      | none =>
        some (.mk hm.id (some hm.parentId) (some hm.index) hm.title hm.url
          (if hm.isFolder then some [] else none) none none)

/-!
## The host bookmark store

The WebExtension bookmarks API (`BrowserBookmarksAPI` wraps
`browser.bookmarks`) is the host tree-mutation collaborator of §6 of the
design: `{getTree, getChildren, create, update, move, remove,
removeTree}` over a hierarchical store.  It is modelled as a forest of
well-formed nodes plus a fresh-id counter; `create` inserts at the
requested index (clamped) or appends, `move` detaches and re-inserts,
`remove` refuses non-empty folders, `removeTree` deletes recursively, and
`getChildren` returns the direct children with `parentId`/`index` filled
in and without grandchildren, as the browser API does.
-/

inductive SNode where
  | book (id : Str) (title : Str) (url : Str) : SNode
  | folder (id : Str) (title : Str) (folderType : Option Str) (children : List SNode) : SNode

def SNode.id : SNode → Str
  | .book i _ _ => i
  | .folder i _ _ _ => i

structure Store where
  roots : List SNode
  nextId : Nat

/-- Remove the node with the given id from a forest, returning it and the
remaining forest. -/
def SNode.detach : SNode → Str → Option (SNode × SNode)
  | .book _ _ _, _ => none
  | .folder i t ft cs, tid =>
    match detachL cs tid with
    | some (m, cs2) => some (m, .folder i t ft cs2)
    | none => none
where detachL : List SNode → Str → Option (SNode × List SNode)
  | [], _ => none
  | n :: rest, tid =>
    if n.id = tid then some (n, rest)
    else
      match SNode.detach n tid with
      | some (m, n2) => some (m, n2 :: rest)
      | none =>
        match detachL rest tid with
        | some (m, rest2) => some (m, n :: rest2)
        | none => none

def detachNode (l : List SNode) (tid : Str) : Option (SNode × List SNode) :=
  SNode.detach.detachL l tid

/-- Insert a node among a folder's children at a clamped index (`none`
appends). -/
def insertAtIdx (cs : List SNode) (n : SNode) : Option Nat → List SNode
  | none => cs ++ [n]
  | some ix => cs.take (min ix cs.length) ++ n :: cs.drop (min ix cs.length)

/-- Add a child to the folder with the given id, anywhere in the
forest. -/
def SNode.insertInto : SNode → Str → SNode → Option Nat → Option SNode
  | .book _ _ _, _, _, _ => none
  | .folder i t ft cs, pid, n, ix =>
    if i = pid then some (.folder i t ft (insertAtIdx cs n ix))
    else
      match insertIntoL cs pid n ix with
      | some cs2 => some (.folder i t ft cs2)
      | none => none
where insertIntoL : List SNode → Str → SNode → Option Nat → Option (List SNode)
  | [], _, _, _ => none
  | c :: rest, pid, n, ix =>
    match SNode.insertInto c pid n ix with
    | some c2 => some (c2 :: rest)
    | none =>
      match insertIntoL rest pid n ix with
      | some rest2 => some (c :: rest2)
      | none => none

def insertChild (l : List SNode) (pid : Str) (n : SNode) (ix : Option Nat) :
    Option (List SNode) :=
  SNode.insertInto.insertIntoL l pid n ix

/-- Update title and/or URL of the node with the given id (folders ignore
the URL field, which the engine never sends them). -/
def SNode.updateIn : SNode → Str → Option Str → Option Str → Option SNode
  | .book i t u, tid, nt, nu =>
    if i = tid then some (.book i (nt.getD t) (nu.getD u)) else none
  | .folder i t ft cs, tid, nt, nu =>
    if i = tid then some (.folder i (nt.getD t) ft cs)
    else
      match updateInL cs tid nt nu with
      | some cs2 => some (.folder i t ft cs2)
      | none => none
where updateInL : List SNode → Str → Option Str → Option Str → Option (List SNode)
  | [], _, _, _ => none
  | c :: rest, tid, nt, nu =>
    match SNode.updateIn c tid nt nu with
    | some c2 => some (c2 :: rest)
    | none =>
      match updateInL rest tid nt nu with
      | some rest2 => some (c :: rest2)
      | none => none

def updateNode (l : List SNode) (tid : Str) (nt nu : Option Str) :
    Option (List SNode) :=
  SNode.updateIn.updateInL l tid nt nu

/-- Find the children list of the folder with the given id. -/
def SNode.childrenOf : SNode → Str → Option (List SNode)
  | .book _ _ _, _ => none
  | .folder i _ _ cs, fid =>
    if i = fid then some cs else childrenOfL cs fid
where childrenOfL : List SNode → Str → Option (List SNode)
  | [], _ => none
  | c :: rest, fid =>
    match SNode.childrenOf c fid with
    | some r => some r
    | none => childrenOfL rest fid

def findChildren (l : List SNode) (fid : Str) : Option (List SNode) :=
  SNode.childrenOf.childrenOfL l fid

/-- One direct child as the browser API reports it from `getChildren`:
`id`, `parentId`, `index`, `title`, `url`; no `children` array. -/
def shallowBNode (pid : Str) (ix : Nat) : SNode → BNode
  | .book i t u => .mk (some i) (some pid) (some ix) t (some u) none none none
  | .folder i t _ _ => .mk (some i) (some pid) (some ix) t none none none none

/-- `BrowserBookmarksAPI.getChildren` (missing folders read as empty). -/
def getChildrenB (st : Store) (fid : Str) : List BNode :=
  match findChildren st.roots fid with
  | some cs => cs.enum.map fun e => shallowBNode fid e.1 e.2
  | none => []

/-- `BrowserBookmarksAPI.create`: returns the created node's id and the
new store; fails if the parent folder does not exist. -/
def createB (st : Store) (pid : Str) (title : Str) (url : Option Str)
    (ix : Option Nat) : Option (Str × Store) :=
  let nid := toDecStr (1000 + st.nextId)
  let n : SNode :=
    match url with
    | some u => .book nid title u
    | none => .folder nid title none []
  match insertChild st.roots pid n ix with
  | some roots' => some (nid, ⟨roots', st.nextId + 1⟩)
  | none => none

/-- `BrowserBookmarksAPI.update`. -/
def updateB (st : Store) (tid : Str) (nt nu : Option Str) : Option Store :=
  match updateNode st.roots tid nt nu with
  | some roots' => some ⟨roots', st.nextId⟩
  | none => none

/-- `BrowserBookmarksAPI.move`: detach the node, then insert it under the
destination parent at the destination index. -/
def moveB (st : Store) (tid : Str) (pid : Str) (ix : Nat) : Option Store :=
  match detachNode st.roots tid with
  | none => none
  | some (n, roots') =>
    match insertChild roots' pid n (some ix) with
    | some roots'' => some ⟨roots'', st.nextId⟩
    | none => none

/-- `BrowserBookmarksAPI.remove`: single bookmark or empty folder only. -/
def removeB (st : Store) (tid : Str) : Option Store :=
  match detachNode st.roots tid with
  | some (.book _ _ _, roots') => some ⟨roots', st.nextId⟩
  | some (.folder _ _ _ [], roots') => some ⟨roots', st.nextId⟩
  | some (.folder _ _ _ (_ :: _), _) => none
  | none => none

/-- `BrowserBookmarksAPI.removeTree`: recursive delete. -/
def removeTreeB (st : Store) (tid : Str) : Option Store :=
  match detachNode st.roots tid with
  | some (_, roots') => some ⟨roots', st.nextId⟩
  | none => none

/-- One node of `getTree`'s result, with `parentId` and `index` filled in
and the whole subtree present. -/
def deepBNode (pid : Str) (ix : Nat) : SNode → BNode
  | .book i t u => .mk (some i) (some pid) (some ix) t (some u) none none none
  | .folder i t ft cs =>
    .mk (some i) (some pid) (some ix) t none (some (deepBNodeList i 0 cs)) none ft
where deepBNodeList (pid : Str) (ix : Nat) : List SNode → List BNode
  | [] => []
  | c :: rest => deepBNode pid ix c :: deepBNodeList pid (ix + 1) rest

/-- `BrowserBookmarksAPI.getTree`: the anonymous root (`id "0"`, empty
title) holding the system roots. -/
def getTreeB (st : Store) : List BNode :=
  [.mk (some "0".data) none (some 0) [] none
    (some (deepBNode.deepBNodeList "0".data 0 st.roots)) none none]

namespace merger

/-!
## The three-phase reconciler (`smartSync` in the merger module)

`smartSyncGo` is the Phase-1/2 loop body of the source `smartSync`,
carrying the loop state (`i`, `processedLocalIds`, `usedUrls`) and the
`localChildren` snapshot read once at entry; the recursive
`await smartSync(matchedFolder.id, cloudNode.children, …)` call is
inlined as: read that folder's children, run the loop, run Phase 3.
Single-node API failures are caught and skipped (`try`/`catch` around
each create/update/move/delete), modelled by keeping the previous store
when an operation returns `none`.
-/

/-- Phase 3 — orphan deletion: re-read the folder's children and delete
every child whose id was never claimed (bookmark: `remove`, folder:
`removeTree`). -/
def phase3 (st : Store) (pid : Str) (processed : List Str) : Store :=
  (getChildrenB st pid).foldl (fun acc localNode =>
    if !truthy localNode.id || processed.contains (localNode.id.getD []) then acc
    else if truthy localNode.url then
      match removeB acc (localNode.id.getD []) with
      | some acc' => acc'
      | none => acc
    else
      match removeTreeB acc (localNode.id.getD []) with
      | some acc' => acc'
      | none => acc) st

/-- `createChildren` from the merger module: recursively create a whole
subtree, swallowing per-node failures.  `createChildNode` handles one
cloud node, `createChildList` the sequential loop. -/
def createChildNode (st : Store) (pid : Str) : BNode → Store
  | .mk _ _ _ t u (some cs2) _ _ =>
    if truthy u then
      match createB st pid t u none with
      | some (_, s2) => s2
      | none => st
    else
      match createB st pid t none none with
      | some (nid, s2) =>
        if truthy (some nid) ∧ cs2.length > 0 then createChildList s2 nid cs2 else s2
      | none => st
  | .mk _ _ _ t u none _ _ =>
    if truthy u then
      match createB st pid t u none with
      | some (_, s2) => s2
      | none => st
    else st
where createChildList (st : Store) (pid : Str) : List BNode → Store
  | [] => st
  | c :: rest => createChildList (createChildNode st pid c) pid rest

def createChildren (st : Store) (pid : Str) (children : List BNode) : Store :=
  createChildNode.createChildList st pid children

/-- The Phase-1/2 loop of `smartSync` over the remaining cloud nodes,
returning the final store and the claimed local ids. -/
def syncNode (st : Store) (localParentId : Str) (localChildren : List BNode)
    (localIndex : GlobalIndex) (localParentPath : Str) (i : Nat)
    (processed usedUrls : List Str) : BNode → Store × List Str × List Str
  | .mk _ _ _ ct cu ccs ch _ =>
    if truthy cu then
      let normalizedUrl := normalizer.normalizeUrl cu
      let m1 :=
        if truthy ch then findNodeByHash (ch.getD []) localIndex localChildren processed
        else none
      let m2 :=
        match m1 with
        | some m => some m
        | none =>
          match localChildren.find? (fun (l : BNode) =>
              truthy l.id && (normalizer.normalizeUrl l.url == normalizedUrl)
                && !processed.contains (l.id.getD [])) with
          | some m => some m
          | none =>
            if !usedUrls.contains normalizedUrl then
              match jsGet localIndex.urlToBookmarks normalizedUrl with
              | some bucket =>
                match bucket.find? (fun (gm : BookmarkLocation) =>
                    truthy gm.id && !processed.contains (gm.id.getD [])) with
                | some gm =>
                  some (.mk gm.id (some gm.parentId) (some gm.index) gm.title
                    (some gm.url) none none none)
                | none => none
              | none => none
            else none
      let doCreate : Unit → Store × List Str × List Str := fun _ =>
        let usedUrls2 := usedUrls ++ [normalizedUrl]
        match createB st localParentId ct cu (some i) with
        | some (nid, s2) =>
          (s2, (if truthy (some nid) then processed ++ [nid] else processed), usedUrls2)
        | none => (st, processed, usedUrls2)
      match m2 with
      | some matched =>
        if truthy matched.id then
          let mid := matched.id.getD []
          let processed2 := processed ++ [mid]
          let usedUrls2 := usedUrls ++ [normalizedUrl]
          let wantTitle := jsTrim matched.title ≠ jsTrim ct
          let wantUrl := normalizer.normalizeUrl matched.url ≠ normalizedUrl
          let st2 :=
            if wantTitle ∨ wantUrl then
              match updateB st mid (if wantTitle then some ct else none)
                  (if wantUrl then cu else none) with
              | some s => s
              | none => st
            else st
          let st3 :=
            if matched.parentId ≠ some localParentId ∨ matched.index ≠ some i then
              match moveB st2 mid localParentId i with
              | some s => s
              | none => st2
            else st2
          (st3, processed2, usedUrls2)
        else doCreate ()
      | none => doCreate ()
    else
      match ccs with
      | some ccs2 =>
        let cloudFolderPath :=
          if localParentPath.isEmpty then ct else localParentPath ++ '/' :: ct
        let m1 := localChildren.find? (fun (l : BNode) =>
          truthy l.id && !truthy l.url && (jsTrim l.title == jsTrim ct)
            && !processed.contains (l.id.getD []))
        let m2 :=
          match m1 with
          | some m => some m
          | none =>
            match jsGet localIndex.pathToFolder cloudFolderPath with
            | some gf =>
              if truthy gf.id && !processed.contains (gf.id.getD []) then
                some (.mk gf.id (some gf.parentId) (some gf.index) gf.title none
                  (some []) none none)
              else none
            | none => none
        let doCreateFolder : Unit → Store × List Str × List Str := fun _ =>
          match createB st localParentId ct none (some i) with
          | some (nid, s2) =>
            (createChildren s2 nid ccs2, processed ++ [nid], usedUrls)
          | none => (st, processed, usedUrls)
        match m2 with
        | some matched =>
          if truthy matched.id then
            let mid := matched.id.getD []
            let processed2 := processed ++ [mid]
            let st2 :=
              if jsTrim matched.title ≠ jsTrim ct then
                match updateB st mid (some ct) none with
                | some s => s
                | none => st
              else st
            let st3 :=
              if matched.parentId ≠ some localParentId ∨ matched.index ≠ some i then
                match moveB st2 mid localParentId i with
                | some s => s
                | none => st2
              else st2
            let lc2 := getChildrenB st3 mid
            let inner := syncList st3 mid lc2 localIndex cloudFolderPath 0 [] [] ccs2
            let st4 := phase3 inner.1 mid inner.2.1
            (st4, processed2, usedUrls)
          else doCreateFolder ()
        | none => doCreateFolder ()
      | none => (st, processed, usedUrls)
where syncList (st : Store) (pid : Str) (lc : List BNode) (gi : GlobalIndex)
    (path : Str) (i : Nat) (processed usedUrls : List Str) :
    List BNode → Store × List Str × List Str
  | [] => (st, processed, usedUrls)
  | c :: rest =>
    let r := syncNode st pid lc gi path i processed usedUrls c
    syncList r.1 pid lc gi path (i + 1) r.2.1 r.2.2 rest

/-- `smartSync` from the merger module: read the folder's children, run
the Phase-1/2 loop over the cloud nodes, then Phase 3 orphan deletion. -/
def smartSync (st : Store) (localParentId : Str) (cloudNodes : List BNode)
    (localIndex : GlobalIndex) (localParentPath : Str) : Store :=
  let localChildren := getChildrenB st localParentId
  let r := syncNode.syncList st localParentId localChildren localIndex localParentPath
    0 [] [] cloudNodes
  phase3 r.1 localParentId r.2.1

end merger

namespace merger

/-- One step of `mergeNodes` over a cloud node; `localChildren` is the
snapshot read once at entry.  A cloud bookmark is created unless some
direct child's `url` is raw-string-equal (`===`) to the cloud node's
`url`; a cloud folder merges into a same-titled (raw equality) direct
child folder, else is created with its whole subtree. -/
def mergeNode (st : Store) (pid : Str) (localChildren : List BNode) : BNode → Store
  | .mk _ _ ix t u (some cs2) _ _ =>
    if truthy u then
      if localChildren.any (fun (l : BNode) => l.url == u) then st
      else
        match createB st pid t u ix with
        | some (_, s2) => s2
        | none => st
    else
      match localChildren.find? (fun (l : BNode) => !truthy l.url && l.title == t) with
      | some ef =>
        if cs2.length > 0 then
          mergeList st (ef.id.getD []) (getChildrenB st (ef.id.getD [])) cs2
        else st
      | none =>
        match createB st pid t none ix with
        | some (nfid, s2) => if cs2.length > 0 then createChildren s2 nfid cs2 else s2
        | none => st
  | .mk _ _ ix t u none _ _ =>
    if truthy u then
      if localChildren.any (fun (l : BNode) => l.url == u) then st
      else
        match createB st pid t u ix with
        | some (_, s2) => s2
        | none => st
    else
      match localChildren.find? (fun (l : BNode) => !truthy l.url && l.title == t) with
      | some _ => st
      | none =>
        match createB st pid t none ix with
        | some (_, s2) => s2
        | none => st
where mergeList (st : Store) (pid : Str) (lc : List BNode) : List BNode → Store
  | [] => st
  | c :: rest => mergeList (mergeNode st pid lc c) pid lc rest

/-- `mergeNodes` from the merger module (additive merge; the recursive
`await mergeNodes(existingFolder.id, node.children)` is inlined as a
fresh read of that folder's children plus the loop). -/
def mergeNodes (st : Store) (pid : Str) (nodes : List BNode) : Store :=
  mergeNode.mergeList st pid (getChildrenB st pid) nodes

end merger

/-!
## The repository (`BookmarkRepository` in `core/bookmark/repository.ts`)
-/

/-- `BookmarkRepository.restoreFromBackup` on an already-extracted tree:
validate, build the global index over the current local tree, then for
every backup system root with a cross-browser mapping locate the matching
local root and run the three-phase `smartSync`; roots without a mapping
are silently skipped. -/
def restoreFromBackup (st : Store) (tree : List BNode) : Except Str Store :=
  if tree.isEmpty then .error "backup empty".data
  else
    match tree.head? with
    | none => .error "backup empty".data
    | some root =>
      match root.children with
      | none => .error "backup invalid: missing root children".data
      | some rootChildren =>
        let localTree := getTreeB st
        let localIndex := buildGlobalIndex localTree
        match localTree.head? with
        | none => .error "local root missing".data
        | some localRoot =>
          match localRoot.children with
          | none => .error "local root missing children".data
          | some localChildren =>
            .ok (rootChildren.foldl (fun acc backupChild =>
              if !hasCrossBrowserMapping backupChild then acc
              else
                match findMatchingSystemFolder backupChild localChildren with
                | some target =>
                  if truthy target.id then
                    match backupChild.children with
                    | some bcs =>
                      let folderName :=
                        if !target.title.isEmpty then target.title
                        else if truthy target.folderType then target.folderType.getD []
                        else "system".data
                      merger.smartSync acc (target.id.getD []) bcs localIndex folderName
                    | none => acc
                  else acc
                | none => acc) st)

/-- `BookmarkRepository.mergeFromBackup` on an already-extracted tree. -/
def mergeFromBackup (st : Store) (tree : List BNode) : Except Str Store :=
  match tree.head? with
  | none => .error "invalid backup".data
  | some root =>
    match root.children with
    | none => .error "invalid backup".data
    | some rootChildren =>
      let localTree := getTreeB st
      match localTree.head? with
      | none => .error "local root missing".data
      | some localRoot =>
        match localRoot.children with
        | none => .error "local root missing children".data
        | some localChildren =>
          .ok (rootChildren.foldl (fun acc child =>
            if !hasCrossBrowserMapping child then acc
            else
              match findMatchingSystemFolder child localChildren with
              | some target =>
                if truthy target.id then
                  match child.children with
                  | some ccs => merger.mergeNodes acc (target.id.getD []) ccs
                  | none => acc
                else acc
              | none => acc) st)

/-!
## C1: reconciler convergence — evaluation at the failing input
-/

/-- The failing local store for C1: the toolbar root holds one bookmark
titled `" A"` (leading space) for `https://a.com`. -/
def c1Store : Store :=
  ⟨[SNode.folder "1".data "Bookmarks bar".data (some "bookmarks-bar".data)
      [SNode.book "10".data " A".data "https://a.com".data]], 0⟩

/-- The remote tree for C1, exactly as `createCloudBackup` on another
replica would serialize it: the same bookmark with title `"A"` and its
content hash. -/
def c1Backup : List BNode :=
  [.mk (some "0".data) none none [] none
    (some [.mk (some "1".data) none none "Bookmarks bar".data none
      (some [.mk none none none "A".data (some "https://a.com".data) none
        (some "https://a.com|A".data) none])
      none (some "bookmarks-bar".data)])
    none none]

/-- C1: reconciler convergence fails on the code.  With the local toolbar
holding the bookmark `{title: " A", url: "https://a.com"}` and the remote
tree holding `{title: "A", url: "https://a.com"}` (hash-stamped as
`createCloudBackup` serializes it), `restoreFromBackup` completes and
leaves the local store completely unchanged — the reconciler matches the
bookmark by URL and compares titles only after `trim()`, so the raw
titles still differ — while the comparator hashes the *raw* title, so
`compare(local, R)` remains `false`, contradicting the claimed
post-condition `compare(local, R) == true`. -/
theorem c1_reconcile_not_convergent :
    restoreFromBackup c1Store c1Backup = .ok c1Store ∧
      compareWithCloud (getTreeB c1Store) c1Backup = false :=
  ⟨rfl, by decide⟩

/-!
## C10: merge-mode existence check
-/

/-- Local toolbar holding `https://a.com/` (trailing slash). -/
def c10Store : Store :=
  ⟨[SNode.folder "1".data "Bookmarks bar".data (some "bookmarks-bar".data)
      [SNode.book "10".data "A".data "https://a.com/".data]], 0⟩

/-- Local toolbar holding the same URL, but inside a subfolder. -/
def c10SubStore : Store :=
  ⟨[SNode.folder "1".data "Bookmarks bar".data (some "bookmarks-bar".data)
      [SNode.folder "2".data "Sub".data none
        [SNode.book "20".data "A".data "https://a.com".data]]], 0⟩

/-- Local toolbar holding the exact raw URL. -/
def c10ExactStore : Store :=
  ⟨[SNode.folder "1".data "Bookmarks bar".data (some "bookmarks-bar".data)
      [SNode.book "10".data "A".data "https://a.com".data]], 0⟩

/-- The cloud node to merge: `{title: "A", url: "https://a.com"}`. -/
def c10Cloud : List BNode :=
  [BNode.mk none none none "A".data (some "https://a.com".data) none none none]

/-- C10: `mergeNodes` decides whether a cloud bookmark exists by raw
string equality of its `url` against only the direct children of the
target folder.  First conjunct: the general shape — for any store, a
one-bookmark merge creates the bookmark iff no direct child has a
raw-equal `url` (no normalization, no index lookup).  The remaining
conjuncts evaluate the consequences: a trailing-slash variant and a
same-URL bookmark in a subfolder both fail the check, so the cloud
bookmark is created as a duplicate; an exactly equal direct child
suppresses creation. -/
theorem c10_merge_exact_and_local :
    (∀ (st : Store) (pid : Str) (ix : Option Nat) (t u : Str),
      truthy (some u) = true →
      merger.mergeNodes st pid [BNode.mk none none ix t (some u) none none none] =
        (if (getChildrenB st pid).any (fun (l : BNode) => l.url == some u) then st
         else
           match createB st pid t (some u) ix with
           | some (_, s2) => s2
           | none => st)) ∧
    merger.mergeNodes c10Store "1".data c10Cloud =
      ⟨[SNode.folder "1".data "Bookmarks bar".data (some "bookmarks-bar".data)
          [SNode.book "10".data "A".data "https://a.com/".data,
           SNode.book "1000".data "A".data "https://a.com".data]], 1⟩ ∧
    merger.mergeNodes c10SubStore "1".data c10Cloud =
      ⟨[SNode.folder "1".data "Bookmarks bar".data (some "bookmarks-bar".data)
          [SNode.folder "2".data "Sub".data none
            [SNode.book "20".data "A".data "https://a.com".data],
           SNode.book "1000".data "A".data "https://a.com".data]], 1⟩ ∧
    merger.mergeNodes c10ExactStore "1".data c10Cloud = c10ExactStore := by
  refine ⟨?_, rfl, rfl, rfl⟩
  intro st pid ix t u hu
  simp [merger.mergeNodes, merger.mergeNode.mergeList, merger.mergeNode, hu]

/-- Witness for `c10_merge_exact_and_local` at a concrete input. -/
theorem c10_merge_witness :
    merger.mergeNodes c10ExactStore "1".data
      [BNode.mk none none none "A".data (some "https://a.com".data) none none none] =
      (if (getChildrenB c10ExactStore "1".data).any
          (fun (l : BNode) => l.url == some "https://a.com".data) then c10ExactStore
       else
         match createB c10ExactStore "1".data "A".data (some "https://a.com".data) none with
         | some (_, s2) => s2
         | none => c10ExactStore) :=
  c10_merge_exact_and_local.1 c10ExactStore "1".data none "A".data
    "https://a.com".data (by decide)

/-!
## C8: trailing-slash hash identity and reconciler no-op
-/

/-- A local toolbar whose bookmark carries `u ++ "/"` (trailing slash)
with title `t`. -/
def c8Store (u : Str) (t : Str) : Store :=
  ⟨[SNode.folder "1".data "Bookmarks bar".data (some "bookmarks-bar".data)
      [SNode.book "10".data t (u ++ ['/'])]], 0⟩

/-- The cloud side of the C8 scenario: the same bookmark with URL `u` and
its content hash. -/
def c8Cloud (u : Str) (t : Str) : List BNode :=
  [BNode.mk none none none t (some u) none
    (some (generateHash (normalizer.normalizeUrl (some u)) t)) none]

/-- C8 counterexample: the claim quantifies over *every* URL `u`, but for
`u = "https://a.com "` (trailing space) the two hashes differ, because
`normalizeUrl` trims before stripping slashes: `u ++ "/"` keeps its inner
space while `u` alone loses it. -/
theorem c8_counterexample :
    generateHash (normalizer.normalizeUrl (some "https://a.com ".data)) "A".data ≠
      generateHash (normalizer.normalizeUrl (some ("https://a.com ".data ++ ['/'])))
        "A".data := by
  decide

/-- C8 (amended): for every *trim-clean* URL `u` (no leading/trailing
whitespace) and every title, `u` and `u` followed by `k ≥ 1` trailing
slashes receive the same content hash; consequently the reconciler run on
the trailing-slash pair performs no create and no delete — `smartSync`
leaves the store untouched. -/
theorem c8_trailing_slash_identity :
    (∀ (u t : Str) (k : Nat), jsTrim u = u → 1 ≤ k →
      generateHash (normalizer.normalizeUrl (some (u ++ List.replicate k '/'))) t =
        generateHash (normalizer.normalizeUrl (some u)) t) ∧
    (∀ u t : Str, jsTrim u = u → u ≠ [] →
      merger.smartSync (c8Store u t) "1".data (c8Cloud u t)
        (buildGlobalIndex (getTreeB (c8Store u t))) "Bookmarks bar".data =
        c8Store u t) := by
  constructor
  · intro u t k hu hk
    exact generateHash_append_slashes u t k hu hk
  · intro u t hu hne
    have ht1 : (u ++ ['/']).isEmpty = false := by cases u <;> simp
    have ht2 : u.isEmpty = false := by simp [List.isEmpty_iff, hne]
    have hnu : normalizer.normalizeUrl (some (u ++ ['/'])) =
        normalizer.normalizeUrl (some u) := by
      have := normalizeUrl_append_slashes u 1 hu (le_refl 1)
      simpa [List.replicate] using this
    simp [merger.smartSync, c8Store, c8Cloud, getTreeB, deepBNode,
      deepBNode.deepBNodeList, getChildrenB, findChildren, SNode.childrenOf,
      SNode.childrenOf.childrenOfL, shallowBNode, buildGlobalIndex, collectInfos,
      collectNode.collectList, collectNode, isSystemRootFolder, truthy,
      BNode.id, BNode.parentId, BNode.index, BNode.title, BNode.url, BNode.children,
      BNode.hash, BNode.folderType, jsSet, jsGet, merger.syncNode.syncList,
      merger.syncNode, findNodeByHash, merger.phase3, ht1, ht2, hnu,
      generateHash_ne_nil, List.find?, SNode.id]

/-- Witness for `c8_trailing_slash_identity` at `u = "https://a.com"`,
`t = "A"`, `k = 1`. -/
theorem c8_trailing_slash_witness :
    generateHash
        (normalizer.normalizeUrl (some ("https://a.com".data ++ List.replicate 1 '/')))
        "A".data =
      generateHash (normalizer.normalizeUrl (some "https://a.com".data)) "A".data ∧
    merger.smartSync (c8Store "https://a.com".data "A".data) "1".data
        (c8Cloud "https://a.com".data "A".data)
        (buildGlobalIndex (getTreeB (c8Store "https://a.com".data "A".data)))
        "Bookmarks bar".data =
      c8Store "https://a.com".data "A".data :=
  ⟨c8_trailing_slash_identity.1 "https://a.com".data "A".data 1 (by decide) (by decide),
   c8_trailing_slash_identity.2 "https://a.com".data "A".data (by decide) (by decide)⟩

/-!
## C4: global index completeness
-/

/-- The bookmark nodes of a tree: every node with a truthy `url`, in DFS
pre-order, descending through all children arrays. -/
def bookmarksOfNode : BNode → List BNode
  | n@(.mk _ _ _ _ u (some cs) _ _) =>
      (if truthy u then [n] else []) ++ bookmarksOfList cs
  | n@(.mk _ _ _ _ u none _ _) => if truthy u then [n] else []
where bookmarksOfList : List BNode → List BNode
  | [] => []
  | c :: rest => bookmarksOfNode c ++ bookmarksOfList rest

def bookmarksOf (l : List BNode) : List BNode := bookmarksOfNode.bookmarksOfList l

/-- Well-formedness: a node with a truthy `url` carries no children array
(true of every browser tree; `buildGlobalIndex`'s `collect` does not
descend below bookmarks). -/
def urlNodeChildless : BNode → Bool
  | .mk _ _ _ _ u (some cs) _ _ => !truthy u && uncList cs
  | .mk _ _ _ _ _ none _ _ => true
where uncList : List BNode → Bool
  | [] => true
  | n :: rest => urlNodeChildless n && uncList rest

def urlNodesChildless (l : List BNode) : Bool := urlNodeChildless.uncList l

/-- Two raw-identical bookmarks (same URL and title, different ids). -/
def c4Tree : List BNode :=
  [BNode.mk (some "10".data) (some "1".data) (some 0) "A".data
    (some "https://a.com".data) none none none,
   BNode.mk (some "11".data) (some "1".data) (some 1) "A".data
    (some "https://a.com".data) none none none]

/-- C4 counterexample: with two bookmarks sharing URL and title, the
second `hashToNode.set` overwrites the first, so the first bookmark (id
`"10"`) is the value of zero `hashToNode` entries — not exactly one as
the claim states for every input tree. -/
theorem c4_counterexample :
    ¬ ∀ b ∈ bookmarksOf c4Tree,
      ((buildGlobalIndex c4Tree).hashToNode.countP (fun e => decide (e.2.id = b.id))) = 1 ∧
      ∃ kv ∈ (buildGlobalIndex c4Tree).urlToBookmarks, ∃ loc ∈ kv.2, loc.id = b.id := by
  decide

theorem jsGet_of_mem_nodup {β : Type} (m : List (Str × β)) (kv : Str × β)
    (hm : kv ∈ m) (hnd : (m.map Prod.fst).Nodup) : jsGet m kv.1 = some kv.2 := by
  induction m with
  | nil => cases hm
  | cons e rest ih =>
    rw [List.map_cons, List.nodup_cons] at hnd
    rcases List.mem_cons.mp hm with rfl | hm'
    · show ((kv :: rest).find? (fun e => decide (e.1 = kv.1))).map (·.2) = some kv.2
      rw [List.find?_cons_of_pos _ (by simp)]
      rfl
    · have hne : e.1 ≠ kv.1 := by
        intro h
        exact hnd.1 (h ▸ List.mem_map_of_mem Prod.fst hm')
      have hrec := ih hm' hnd.2
      show ((e :: rest).find? (fun x => decide (x.1 = kv.1))).map (·.2) = some kv.2
      rw [List.find?_cons_of_neg _ (by simp [hne])]
      exact hrec

theorem jsSet_keys_nodup {β : Type} (m : List (Str × β)) (k : Str) (v : β)
    (hnd : (m.map Prod.fst).Nodup) : ((jsSet m k v).map Prod.fst).Nodup := by
  unfold jsSet
  by_cases h : m.any (fun e => e.1 = k) = true
  · rw [if_pos h]
    have : ((m.map fun e => if e.1 = k then (k, v) else e).map Prod.fst) =
        m.map Prod.fst := by
      rw [List.map_map]
      apply List.map_congr_left
      intro e _
      by_cases he : e.1 = k
      · simp [he]
      · simp [he]
    rw [this]
    exact hnd
  · rw [if_neg h]
    have hk : k ∉ m.map Prod.fst := by
      intro hkm
      rcases List.mem_map.mp hkm with ⟨e, he, hek⟩
      exact h (List.any_eq_true.mpr ⟨e, he, by simp [hek]⟩)
    simp only [List.map_append, List.map_cons, List.map_nil]
    exact List.Nodup.append hnd (List.nodup_singleton k)
      (by intro a ha hb; simp at hb; subst hb; exact hk ha)

theorem foldl_jsSet_nodup {α β : Type} (f : α → Str) (g : α → β) :
    ∀ (l : List α) (m0 : List (Str × β)),
      (∀ a ∈ l, ∀ e ∈ m0, e.1 ≠ f a) → (l.map f).Nodup →
      l.foldl (fun m b => jsSet m (f b) (g b)) m0 =
        m0 ++ l.map (fun b => (f b, g b)) := by
  intro l
  induction l with
  | nil => intro m0 _ _; simp
  | cons b rest ih =>
    intro m0 hdisj hnd
    rw [List.map_cons, List.nodup_cons] at hnd
    have hany : m0.any (fun e => e.1 = f b) = false := by
      rw [List.any_eq_false]
      intro e he
      simpa using hdisj b (List.mem_cons_self b rest) e he
    have hstep : jsSet m0 (f b) (g b) = m0 ++ [(f b, g b)] := by
      unfold jsSet
      rw [if_neg (by simp [hany])]
    simp only [List.foldl_cons, hstep]
    rw [ih (m0 ++ [(f b, g b)]) ?_ hnd.2]
    · simp
    · intro a ha e he
      rcases List.mem_append.mp he with he1 | he1
      · exact hdisj a (List.mem_cons_of_mem b ha) e he1
      · simp at he1
        subst he1
        intro hcon
        have hcon2 : f b = f a := hcon
        exact hnd.1 (hcon2.symm ▸ List.mem_map_of_mem f ha)

theorem jsSet_bucket_preserves {β : Type} (m : List (Str × List β))
    (kv : Str × List β) (_hnd : (m.map Prod.fst).Nodup) (hm : kv ∈ m)
    (loc : β) (hloc : loc ∈ kv.2) (k : Str) (newBucket : List β)
    (hsub : k = kv.1 → kv.2 ⊆ newBucket) :
    ∃ kv' ∈ jsSet m k newBucket, loc ∈ kv'.2 := by
  unfold jsSet
  by_cases hany : m.any (fun e => e.1 = k) = true
  · rw [if_pos hany]
    by_cases hk : kv.1 = k
    · refine ⟨(k, newBucket), ?_, hsub hk.symm hloc⟩
      exact List.mem_map.mpr ⟨kv, hm, by simp [hk]⟩
    · refine ⟨kv, ?_, hloc⟩
      exact List.mem_map.mpr ⟨kv, hm, by simp [hk]⟩
  · rw [if_neg hany]
    exact ⟨kv, List.mem_append_left _ hm, hloc⟩

theorem jsSet_bucket_adds {β : Type} (m : List (Str × List β)) (k : Str)
    (newBucket : List β) (loc : β) (hloc : loc ∈ newBucket) :
    ∃ kv' ∈ jsSet m k newBucket, loc ∈ kv'.2 := by
  unfold jsSet
  by_cases hany : m.any (fun e => e.1 = k) = true
  · rw [if_pos hany]
    rcases List.any_eq_true.mp hany with ⟨e, he, hek⟩
    simp only [decide_eq_true_eq] at hek
    refine ⟨(k, newBucket), ?_, hloc⟩
    exact List.mem_map.mpr ⟨e, he, by simp [hek]⟩
  · rw [if_neg hany]
    exact ⟨(k, newBucket), List.mem_append_right _ (List.mem_singleton_self _), hloc⟩

/-- The per-bookmark step of the `urlToBookmarks` fold. -/
def urlStep (m : List (Str × List BookmarkLocation)) (b : BookmarkInfo) :
    List (Str × List BookmarkLocation) :=
  jsSet m b.normalizedUrl ((jsGet m b.normalizedUrl).getD [] ++
    [⟨b.node.id, some (generateHash b.normalizedUrl b.node.title), b.parentId,
      b.index, b.node.title, b.normalizedUrl⟩])

theorem urlStep_keys_nodup (m : List (Str × List BookmarkLocation))
    (b : BookmarkInfo) (hnd : (m.map Prod.fst).Nodup) :
    ((urlStep m b).map Prod.fst).Nodup :=
  jsSet_keys_nodup _ _ _ hnd

theorem urlStep_preserves (m : List (Str × List BookmarkLocation))
    (b : BookmarkInfo) (hnd : (m.map Prod.fst).Nodup)
    (kv : Str × List BookmarkLocation) (hm : kv ∈ m)
    (loc : BookmarkLocation) (hloc : loc ∈ kv.2) :
    ∃ kv' ∈ urlStep m b, loc ∈ kv'.2 := by
  apply jsSet_bucket_preserves m kv hnd hm loc hloc
  intro hk
  intro x hx
  have hget : jsGet m b.normalizedUrl = some kv.2 := by
    rw [hk]
    exact jsGet_of_mem_nodup m kv hm hnd
  rw [hget]
  exact List.mem_append_left _ hx

theorem urlFold_preserves (l : List BookmarkInfo) :
    ∀ (m0 : List (Str × List BookmarkLocation)), (m0.map Prod.fst).Nodup →
      ∀ kv ∈ m0, ∀ loc ∈ kv.2, ∃ kv' ∈ l.foldl urlStep m0, loc ∈ kv'.2 := by
  induction l with
  | nil => intro m0 _ kv hm loc hloc; exact ⟨kv, hm, hloc⟩
  | cons b rest ih =>
    intro m0 hnd kv hm loc hloc
    obtain ⟨kv1, hm1, hloc1⟩ := urlStep_preserves m0 b hnd kv hm loc hloc
    exact ih (urlStep m0 b) (urlStep_keys_nodup m0 b hnd) kv1 hm1 loc hloc1

theorem urlFold_mem (l : List BookmarkInfo) :
    ∀ (m0 : List (Str × List BookmarkLocation)), (m0.map Prod.fst).Nodup →
      ∀ b ∈ l, ∃ kv ∈ l.foldl urlStep m0, ∃ loc ∈ kv.2, loc.id = b.node.id := by
  induction l with
  | nil => intro _ _ b hb; cases hb
  | cons c rest ih =>
    intro m0 hnd b hb
    rcases List.mem_cons.mp hb with rfl | hb'
    · have hadd : ∃ kv' ∈ urlStep m0 b, (⟨b.node.id,
          some (generateHash b.normalizedUrl b.node.title), b.parentId, b.index,
          b.node.title, b.normalizedUrl⟩ : BookmarkLocation) ∈ kv'.2 :=
        jsSet_bucket_adds _ _ _ _ (List.mem_append_right _ (List.mem_singleton_self _))
      obtain ⟨kv1, hm1, hloc1⟩ := hadd
      obtain ⟨kv2, hm2, hloc2⟩ := urlFold_preserves rest (urlStep m0 b)
        (urlStep_keys_nodup m0 b hnd) kv1 hm1 _ hloc1
      exact ⟨kv2, hm2, _, hloc2, rfl⟩
    · exact ih (urlStep m0 c) (urlStep_keys_nodup m0 c hnd) b hb'

/-- The `BookmarkInfo` record `collect` builds for a bookmark node. -/
def infoOf (n : BNode) : BookmarkInfo :=
  ⟨n, normalizer.normalizeUrl n.url, n.parentId.getD [], n.index.getD 0⟩

theorem collect_fst : ∀ l : List BNode, urlNodesChildless l = true →
    ∀ pp : Str, (collectNode.collectList pp l).1 = (bookmarksOf l).map infoOf := by
  apply bnode_forest_induction
    (P := fun l => urlNodesChildless l = true →
      ∀ pp : Str, (collectNode.collectList pp l).1 = (bookmarksOf l).map infoOf)
  · intro _ pp
    rfl
  · intro i p ix t u cs h f rest ih1 ih2 hwf pp
    cases cs with
    | none =>
      have hwf2 : urlNodesChildless rest = true := by
        simpa [urlNodesChildless, urlNodeChildless.uncList, urlNodeChildless] using hwf
      by_cases hu : truthy u = true
      · simp [collectNode.collectList, collectNode, bookmarksOf,
          bookmarksOfNode.bookmarksOfList, bookmarksOfNode, hu, ih2 hwf2 pp, infoOf,
          BNode.url, BNode.parentId, BNode.index]
      · replace hu : truthy u = false := Bool.eq_false_iff.mpr hu
        simp [collectNode.collectList, collectNode, bookmarksOf,
          bookmarksOfNode.bookmarksOfList, bookmarksOfNode, hu, ih2 hwf2 pp]
    | some cs2 =>
      have hwf1 : (!truthy u && urlNodeChildless.uncList cs2 &&
          urlNodeChildless.uncList rest) = true := by
        simpa [urlNodesChildless, urlNodeChildless.uncList, urlNodeChildless] using hwf
      rw [Bool.and_eq_true, Bool.and_eq_true] at hwf1
      obtain ⟨⟨h1, h2⟩, h3⟩ := hwf1
      have hu : truthy u = false := by simpa using h1
      simp only [Option.getD] at ih1
      have ihcs := ih1 (by simpa [urlNodesChildless] using h2)
      have ihrest := ih2 (by simpa [urlNodesChildless] using h3) pp
      simp [collectNode.collectList, collectNode, bookmarksOf,
        bookmarksOfNode.bookmarksOfList, bookmarksOfNode, hu, ihrest,
        ihcs, urlNodesChildless]

theorem countP_id_eq_one (l : List BNode) (b : BNode) (hmem : b ∈ l)
    (hnd : (l.map BNode.id).Nodup) :
    l.countP (fun n => decide (n.id = b.id)) = 1 := by
  induction l with
  | nil => cases hmem
  | cons c rest ih =>
    rw [List.map_cons, List.nodup_cons] at hnd
    rcases List.mem_cons.mp hmem with rfl | hm2
    · rw [List.countP_cons_of_pos _ _ (by simp)]
      have hz : rest.countP (fun n => decide (n.id = b.id)) = 0 := by
        rw [List.countP_eq_zero]
        intro n hn
        simp only [decide_eq_true_eq]
        intro he
        exact hnd.1 (he ▸ List.mem_map_of_mem BNode.id hn)
      rw [hz]
    · rw [List.countP_cons_of_neg _ _ ?_]
      · exact ih hm2 hnd.2
      · simp only [decide_eq_true_eq]
        intro he
        exact hnd.1 (he ▸ List.mem_map_of_mem BNode.id hm2)

/-- C4 (amended): for every well-formed tree (bookmarks carry no children
array) whose bookmarks have pairwise-distinct ids and pairwise-distinct
content hashes, `buildGlobalIndex` maps every bookmark of the source tree
to exactly one `hashToNode` entry and files it in at least one
`urlToBookmarks` bucket.  (Duplicate content hashes overwrite each other
in `hashToNode` — see the counterexample — so the distinctness hypothesis
is necessary.) -/
theorem c4_global_index_completeness (tree : List BNode)
    (hwf : urlNodesChildless tree = true)
    (hids : ((bookmarksOf tree).map BNode.id).Nodup)
    (hh : ((bookmarksOf tree).map (fun n =>
      generateHash (normalizer.normalizeUrl n.url) n.title)).Nodup) :
    ∀ b ∈ bookmarksOf tree,
      ((buildGlobalIndex tree).hashToNode.countP (fun e => decide (e.2.id = b.id))) = 1 ∧
      ∃ kv ∈ (buildGlobalIndex tree).urlToBookmarks, ∃ loc ∈ kv.2, loc.id = b.id := by
  intro b hb
  have hcol : (collectInfos [] tree).1 = (bookmarksOf tree).map infoOf :=
    collect_fst tree hwf []
  have hkeys : ((collectInfos [] tree).1.map
      (fun bi => generateHash bi.normalizedUrl bi.node.title)).Nodup := by
    rw [hcol, List.map_map]
    exact hh
  constructor
  · have hfold := foldl_jsSet_nodup
      (fun bi : BookmarkInfo => generateHash bi.normalizedUrl bi.node.title)
      (fun bi : BookmarkInfo =>
        (⟨bi.node.id, some (generateHash bi.normalizedUrl bi.node.title), bi.parentId,
          bi.index, bi.node.title, some bi.normalizedUrl, false⟩ : NodeLocation))
      (collectInfos [] tree).1 [] (by intro a _ e he; cases he) hkeys
    have hmap : (buildGlobalIndex tree).hashToNode =
        (collectInfos [] tree).1.map (fun bi =>
          (generateHash bi.normalizedUrl bi.node.title,
           (⟨bi.node.id, some (generateHash bi.normalizedUrl bi.node.title), bi.parentId,
             bi.index, bi.node.title, some bi.normalizedUrl, false⟩ : NodeLocation))) := by
      show (collectInfos [] tree).1.foldl _ [] = _
      rw [hfold]
      simp
    rw [hmap, hcol, List.map_map, List.countP_map]
    have : ((fun e : Str × NodeLocation => decide (e.2.id = b.id)) ∘
        ((fun bi : BookmarkInfo =>
          (generateHash bi.normalizedUrl bi.node.title,
           (⟨bi.node.id, some (generateHash bi.normalizedUrl bi.node.title), bi.parentId,
             bi.index, bi.node.title, some bi.normalizedUrl, false⟩ : NodeLocation))) ∘ infoOf)) =
        (fun n : BNode => decide (n.id = b.id)) := by
      funext n
      rfl
    rw [this]
    exact countP_id_eq_one _ b hb hids
  · have hbks : infoOf b ∈ (collectInfos [] tree).1 := by
      rw [hcol]
      exact List.mem_map_of_mem infoOf hb
    have hurl : (buildGlobalIndex tree).urlToBookmarks =
        (collectInfos [] tree).1.foldl urlStep [] := rfl
    obtain ⟨kv, hkv, loc, hloc, hid⟩ :=
      urlFold_mem (collectInfos [] tree).1 [] (by simp) (infoOf b) hbks
    exact ⟨kv, hurl ▸ hkv, loc, hloc, hid⟩

/-- Two distinct bookmarks for the C4 witness. -/
def c4WitTree : List BNode :=
  [BNode.mk (some "10".data) (some "1".data) (some 0) "A".data
    (some "https://a.com".data) none none none,
   BNode.mk (some "11".data) (some "1".data) (some 1) "B".data
    (some "https://b.com".data) none none none]

/-- Witness for `c4_global_index_completeness` at a concrete two-bookmark
tree. -/
theorem c4_global_index_witness :
    ((buildGlobalIndex c4WitTree).hashToNode.countP
      (fun e => decide (e.2.id = some "10".data))) = 1 ∧
    ∃ kv ∈ (buildGlobalIndex c4WitTree).urlToBookmarks, ∃ loc ∈ kv.2,
      loc.id = some "10".data := by
  have h := c4_global_index_completeness c4WitTree (by decide) (by decide) (by decide)
    (BNode.mk (some "10".data) (some "1".data) (some 0) "A".data
      (some "https://a.com".data) none none none)
    (by
      rw [show bookmarksOf c4WitTree =
        [BNode.mk (some "10".data) (some "1".data) (some 0) "A".data
          (some "https://a.com".data) none none none,
         BNode.mk (some "11".data) (some "1".data) (some 1) "B".data
          (some "https://b.com".data) none none none] from rfl]
      exact List.mem_cons_self _ _)
  simpa [BNode.id] using h

/-!
## C3: backup filename generation and parsing

`FileManager.generateBackupFileName` / `parseBackupFileName` from
`core/storage/file-manager.ts`.  The generator reads the civil fields of
the current clock (`getFullYear()` … `getSeconds()`); the parser turns a
matching filename back into a timestamp via
`new Date(y, m-1, d, h, mi, s).getTime()`.  Both sides use the same
(local) calendar, modelled by `CivilDateTime` and `epochMs` (the standard
Gregorian days-from-civil algorithm); the clock is second-granular, which
is exactly the truncation the round-trip claim allows.
-/

structure CivilDateTime where
  year : Nat
  month : Nat
  day : Nat
  hour : Nat
  minute : Nat
  second : Nat
deriving DecidableEq

/-- Days between a Gregorian civil date and 1970-01-01. -/
def daysFromCivil (y : Int) (m : Nat) (d : Nat) : Int :=
  let y2 : Int := if m ≤ 2 then y - 1 else y
  let era : Int := (if 0 ≤ y2 then y2 else y2 - 399) / 400
  let yoe : Int := y2 - era * 400
  let doy : Int := (153 * (if m > 2 then (m : Int) - 3 else (m : Int) + 9) + 2) / 5
    + (d : Int) - 1
  let doe : Int := yoe * 365 + yoe / 4 - yoe / 100 + doy
  era * 146097 + doe - 719468

/-- `new Date(y, m-1, d, h, mi, s).getTime()` for in-range civil fields. -/
def epochMs (c : CivilDateTime) : Int :=
  daysFromCivil (c.year : Int) c.month c.day * 86400000 +
    (c.hour : Int) * 3600000 + (c.minute : Int) * 60000 + (c.second : Int) * 1000

/-- `BackupFileMetadata` from `core/storage/types.ts`. -/
structure BackupFileMetadata where
  timestamp : Int
  browser : Str
  count : Nat
  revisionNumber : Nat
deriving DecidableEq

/-- `browser.toLowerCase().replace(/\s+/g, "")`. -/
def browserSlug (browser : Str) : Str :=
  jsToLowerStr (browser.filter (fun c => !isJsSpace c))

/-- `FileManager.generateBackupFileName`, with the clock explicit. -/
def generateBackupFileName (now : CivilDateTime) (browser : Str) (count : Nat)
    (revisionNumber : Nat) : Str :=
  "bookmarks_".data ++ toDecStr now.year ++ pad2 now.month ++ pad2 now.day ++
    "_".data ++ pad2 now.hour ++ pad2 now.minute ++ pad2 now.second ++
    "_".data ++ browserSlug browser ++
    "_".data ++ toDecStr count ++ "_v".data ++ toDecStr revisionNumber ++ ".json".data

def isDigit (c : Char) : Bool := 48 ≤ c.toNat && c.toNat ≤ 57

def isLowerAlpha (c : Char) : Bool := 97 ≤ c.toNat && c.toNat ≤ 122

/-- `parseInt` on an all-digit string. -/
def parseDigits (s : Str) : Nat := s.foldl (fun acc c => acc * 10 + (c.toNat - 48)) 0

/-- The `replace(/\.gz$/, "")` step of `parseBackupFileName`. -/
def stripGz (s : Str) : Str :=
  if 3 ≤ s.length ∧ s.drop (s.length - 3) = ".gz".data then s.take (s.length - 3)
  else s

/-- `FileManager.parseBackupFileName`: strip one trailing `.gz`, then
match `bookmarks_(\d{4})(\d{2})(\d{2})_(\d{2})(\d{2})(\d{2})_([a-z]+)_`
`(\d+)_v(\d+)\.json` anchored at both ends (maximal munch coincides with
the regex's greedy groups here, since the separators are neither digits
nor lower-case letters). -/
def parseBackupFileName (fileName : Str) : Option BackupFileMetadata :=
  let clean := stripGz fileName
  if clean.take 10 ≠ "bookmarks_".data then none else
  let r0 := clean.drop 10
  let date := r0.take 8
  if ¬(date.length = 8 ∧ date.all isDigit) then none else
  let r1 := r0.drop 8
  if r1.take 1 ≠ "_".data then none else
  let r2 := r1.drop 1
  let time := r2.take 6
  if ¬(time.length = 6 ∧ time.all isDigit) then none else
  let r3 := r2.drop 6
  if r3.take 1 ≠ "_".data then none else
  let r4 := r3.drop 1
  let browser := r4.takeWhile isLowerAlpha
  if browser.isEmpty then none else
  let r5 := r4.drop browser.length
  if r5.take 1 ≠ "_".data then none else
  let r6 := r5.drop 1
  let countS := r6.takeWhile isDigit
  if countS.isEmpty then none else
  let r7 := r6.drop countS.length
  if r7.take 2 ≠ "_v".data then none else
  let r8 := r7.drop 2
  let revS := r8.takeWhile isDigit
  if revS.isEmpty then none else
  let r9 := r8.drop revS.length
  if r9 ≠ ".json".data then none else
  some ⟨epochMs ⟨parseDigits (date.take 4), parseDigits ((date.drop 4).take 2),
      parseDigits (date.drop 6), parseDigits (time.take 2),
      parseDigits ((time.drop 2).take 2), parseDigits (time.drop 4)⟩,
    browser, parseDigits countS, parseDigits revS⟩

example : generateBackupFileName ⟨2026, 1, 27, 14, 30, 52⟩ "Edge".data 157 1 =
    "bookmarks_20260127_143052_edge_157_v1.json".data := by decide

example : parseBackupFileName "bookmarks_20260127_143052_edge_157_v3.json.gz".data =
    some ⟨epochMs ⟨2026, 1, 27, 14, 30, 52⟩, "edge".data, 157, 3⟩ := by decide

example : parseBackupFileName "bookmarks_20260127_143052_Edge_157_v3.json".data =
    none := by decide

theorem char_toNat_ofNat (n : Nat) (h : n < 55296) : (Char.ofNat n).toNat = n := by
  unfold Char.ofNat
  rw [dif_pos (Or.inl (by omega))]
  rfl

theorem toDecStrAux_ne_nil (fuel n : Nat) : toDecStrAux (fuel + 1) n ≠ [] := by
  unfold toDecStrAux
  by_cases h : n < 10
  · simp [h]
  · simp [h]

theorem toDecStrAux_all_digits : ∀ fuel n, n < 10 ^ fuel →
    (toDecStrAux fuel n).all isDigit = true := by
  intro fuel
  induction fuel with
  | zero => intro n h; interval_cases n; rfl
  | succ fuel ih =>
    intro n h
    unfold toDecStrAux
    by_cases h10 : n < 10
    · simp only [if_pos h10, List.all_cons, List.all_nil, Bool.and_true]
      unfold isDigit
      rw [char_toNat_ofNat (48 + n) (by omega)]
      simp only [Bool.and_eq_true, decide_eq_true_eq]
      omega
    · simp only [if_neg h10, List.all_append, List.all_cons, List.all_nil]
      have h1 : n / 10 < 10 ^ fuel := by
        rw [Nat.div_lt_iff_lt_mul (by omega)]
        calc n < 10 ^ (fuel + 1) := h
        _ = 10 ^ fuel * 10 := by ring
      rw [ih (n / 10) h1]
      have hm : n % 10 < 10 := Nat.mod_lt n (by omega)
      unfold isDigit
      rw [char_toNat_ofNat (48 + n % 10) (by omega)]
      simp only [Bool.and_eq_true, Bool.true_and, decide_eq_true_eq, and_true]
      omega

theorem parseDigits_append (s : Str) (c : Char) :
    parseDigits (s ++ [c]) = parseDigits s * 10 + (c.toNat - 48) := by
  unfold parseDigits
  rw [List.foldl_append]
  rfl

theorem toDecStrAux_parse : ∀ fuel n, n < 10 ^ fuel →
    parseDigits (toDecStrAux fuel n) = n := by
  intro fuel
  induction fuel with
  | zero => intro n h; interval_cases n; rfl
  | succ fuel ih =>
    intro n h
    unfold toDecStrAux
    by_cases h10 : n < 10
    · rw [if_pos h10]
      show parseDigits ([] ++ [Char.ofNat (48 + n)]) = n
      rw [parseDigits_append, char_toNat_ofNat (48 + n) (by omega)]
      simp [parseDigits]
    · rw [if_neg h10]
      have h1 : n / 10 < 10 ^ fuel := by
        rw [Nat.div_lt_iff_lt_mul (by omega)]
        calc n < 10 ^ (fuel + 1) := h
        _ = 10 ^ fuel * 10 := by ring
      rw [parseDigits_append, ih (n / 10) h1,
        char_toNat_ofNat (48 + n % 10) (by omega)]
      omega

theorem toDecStrAux_length : ∀ fuel n, n < 10 ^ fuel →
    ∀ k, 1 ≤ k → ((toDecStrAux fuel n).length ≤ k ↔ n < 10 ^ k) := by
  intro fuel
  induction fuel with
  | zero => intro n h; interval_cases n; intro k hk; simp [toDecStrAux]
  | succ fuel ih =>
    intro n h k hk
    unfold toDecStrAux
    by_cases h10 : n < 10
    · simp only [if_pos h10, List.length_cons, List.length_nil]
      constructor
      · intro _
        calc n < 10 := h10
        _ = 10 ^ 1 := by norm_num
        _ ≤ 10 ^ k := Nat.pow_le_pow_right (by omega) hk
      · intro _; omega
    · simp only [if_neg h10, List.length_append, List.length_cons, List.length_nil]
      have h1 : n / 10 < 10 ^ fuel := by
        rw [Nat.div_lt_iff_lt_mul (by omega)]
        calc n < 10 ^ (fuel + 1) := h
        _ = 10 ^ fuel * 10 := by ring
      have hfuel : 1 ≤ fuel := by
        by_contra hf
        have : fuel = 0 := by omega
        subst this
        simp at h1
        omega
      obtain ⟨fuel', rfl⟩ : ∃ f', fuel = f' + 1 := ⟨fuel - 1, by omega⟩
      have hne := toDecStrAux_ne_nil fuel' (n / 10)
      have hlen1 : 1 ≤ (toDecStrAux (fuel' + 1) (n / 10)).length :=
        List.length_pos.mpr hne
      match k, hk with
      | 1, _ =>
        constructor
        · intro hc; omega
        · intro hc; norm_num at hc; omega
      | k + 2, _ =>
        have := ih (n / 10) h1 (k + 1) (by omega)
        constructor
        · intro hc
          have hlen : (toDecStrAux (fuel' + 1) (n / 10)).length ≤ k + 1 := by omega
          have hn10 : n / 10 < 10 ^ (k + 1) := this.mp hlen
          rw [Nat.div_lt_iff_lt_mul (by omega)] at hn10
          calc n < 10 ^ (k + 1) * 10 := hn10
          _ = 10 ^ (k + 2) := by ring
        · intro hc
          have hn10 : n / 10 < 10 ^ (k + 1) := by
            rw [Nat.div_lt_iff_lt_mul (by omega)]
            calc n < 10 ^ (k + 2) := hc
            _ = 10 ^ (k + 1) * 10 := by ring
          have hback := this.mpr hn10
          omega

theorem takeWhile_append_cons {p : Char → Bool} (xs : Str) (y : Char) (ys : Str)
    (hxs : xs.all p = true) (hy : p y = false) :
    (xs ++ y :: ys).takeWhile p = xs := by
  induction xs with
  | nil => simp [List.takeWhile_cons, hy]
  | cons a rest ih =>
    rw [List.all_cons, Bool.and_eq_true] at hxs
    simp [List.takeWhile_cons, hxs.1, ih hxs.2]

theorem stripGz_append_json (X : Str) :
    stripGz (X ++ ".json".data) = X ++ ".json".data := by
  have hsplit : X ++ ".json".data = (X ++ ".j".data) ++ "son".data := by simp
  have hlen : (X ++ ".json".data).length = X.length + 5 := by simp
  have hdrop : (X ++ ".json".data).drop ((X ++ ".json".data).length - 3) =
      "son".data := by
    rw [hlen, hsplit]
    rw [List.drop_left' (by simp)]
  unfold stripGz
  rw [hdrop]
  simp

theorem parse_components (Y MO D H MI SEC B C R : Str)
    (hY : Y.length = 4) (hYd : Y.all isDigit = true)
    (hMO : MO.length = 2) (hMOd : MO.all isDigit = true)
    (hD : D.length = 2) (hDd : D.all isDigit = true)
    (hH : H.length = 2) (hHd : H.all isDigit = true)
    (hMI : MI.length = 2) (hMId : MI.all isDigit = true)
    (hSEC : SEC.length = 2) (hSECd : SEC.all isDigit = true)
    (hB : B ≠ []) (hBl : B.all isLowerAlpha = true)
    (hC : C ≠ []) (hCd : C.all isDigit = true)
    (hR : R ≠ []) (hRd : R.all isDigit = true) :
    parseBackupFileName ("bookmarks_".data ++ Y ++ MO ++ D ++ "_".data ++ H ++ MI ++
        SEC ++ "_".data ++ B ++ "_".data ++ C ++ "_v".data ++ R ++ ".json".data) =
      some ⟨epochMs ⟨parseDigits Y, parseDigits MO, parseDigits D, parseDigits H,
        parseDigits MI, parseDigits SEC⟩, B, parseDigits C, parseDigits R⟩ := by
  set Z12 : Str := R ++ ".json".data with hZ12
  set Z10 : Str := C ++ ('_' :: 'v' :: Z12) with hZ10
  set Z8 : Str := B ++ ('_' :: Z10) with hZ8
  set Z4 : Str := H ++ MI ++ SEC ++ ('_' :: Z8) with hZ4
  set Z0 : Str := Y ++ MO ++ D ++ ('_' :: Z4) with hZ0
  have hname : "bookmarks_".data ++ Y ++ MO ++ D ++ "_".data ++ H ++ MI ++
      SEC ++ "_".data ++ B ++ "_".data ++ C ++ "_v".data ++ R ++ ".json".data =
      "bookmarks_".data ++ Z0 := by
    simp [hZ0, hZ4, hZ8, hZ10, hZ12]
  rw [hname]
  have hstrip : stripGz ("bookmarks_".data ++ Z0) = "bookmarks_".data ++ Z0 := by
    have : "bookmarks_".data ++ Z0 =
        ("bookmarks_".data ++ (Y ++ MO ++ D ++ ('_' :: (H ++ MI ++ SEC ++
          ('_' :: (B ++ ('_' :: (C ++ ('_' :: 'v' :: R))))))))) ++ ".json".data := by
      simp [hZ0, hZ4, hZ8, hZ10, hZ12]
    rw [this, stripGz_append_json]
  have htake10 : ("bookmarks_".data ++ Z0).take 10 = "bookmarks_".data :=
    List.take_left' (by decide)
  have hdrop10 : ("bookmarks_".data ++ Z0).drop 10 = Z0 :=
    List.drop_left' (by decide)
  have hgroup0 : Z0 = (Y ++ MO ++ D) ++ ('_' :: Z4) := by simp [hZ0]
  have hdate : Z0.take 8 = Y ++ MO ++ D := by
    rw [hgroup0]
    exact List.take_left' (by simp [hY, hMO, hD])
  have hr1 : Z0.drop 8 = '_' :: Z4 := by
    rw [hgroup0]
    exact List.drop_left' (by simp [hY, hMO, hD])
  have hgroup4 : Z4 = (H ++ MI ++ SEC) ++ ('_' :: Z8) := by simp [hZ4]
  have htime : Z4.take 6 = H ++ MI ++ SEC := by
    rw [hgroup4]
    exact List.take_left' (by simp [hH, hMI, hSEC])
  have hr3 : Z4.drop 6 = '_' :: Z8 := by
    rw [hgroup4]
    exact List.drop_left' (by simp [hH, hMI, hSEC])
  have hbrowser : Z8.takeWhile isLowerAlpha = B := by
    rw [hZ8]
    exact takeWhile_append_cons B '_' Z10 hBl (by decide)
  have hr5 : Z8.drop B.length = '_' :: Z10 := by
    rw [hZ8]
    exact List.drop_left' rfl
  have hcount : Z10.takeWhile isDigit = C := by
    rw [hZ10]
    exact takeWhile_append_cons C '_' ('v' :: Z12) hCd (by decide)
  have hr7 : Z10.drop C.length = '_' :: 'v' :: Z12 := by
    rw [hZ10]
    exact List.drop_left' rfl
  have hrev : Z12.takeWhile isDigit = R := by
    rw [hZ12]
    show (R ++ '.' :: "json".data).takeWhile isDigit = R
    exact takeWhile_append_cons R '.' "json".data hRd (by decide)
  have hr9 : Z12.drop R.length = ".json".data := by
    rw [hZ12]
    exact List.drop_left' rfl
  have hdate4 : (Y ++ MO ++ D).take 4 = Y := by
    rw [show Y ++ MO ++ D = Y ++ (MO ++ D) from by simp]
    exact List.take_left' hY
  have hdate4d : ((Y ++ MO ++ D).drop 4).take 2 = MO := by
    rw [show Y ++ MO ++ D = Y ++ (MO ++ D) from by simp,
      List.drop_left' hY]
    exact List.take_left' hMO
  have hdate6 : (Y ++ MO ++ D).drop 6 = D := by
    exact List.drop_left' (by simp [hY, hMO])
  have htime2 : (H ++ MI ++ SEC).take 2 = H := by
    rw [show H ++ MI ++ SEC = H ++ (MI ++ SEC) from by simp]
    exact List.take_left' hH
  have htime2d : ((H ++ MI ++ SEC).drop 2).take 2 = MI := by
    rw [show H ++ MI ++ SEC = H ++ (MI ++ SEC) from by simp,
      List.drop_left' hH]
    exact List.take_left' hMI
  have htime4 : (H ++ MI ++ SEC).drop 4 = SEC := by
    exact List.drop_left' (by simp [hH, hMI])
  have hBe : B.isEmpty = false := by
    cases B with
    | nil => exact absurd rfl hB
    | cons a l => rfl
  have hCe : C.isEmpty = false := by
    cases C with
    | nil => exact absurd rfl hC
    | cons a l => rfl
  have hRe : R.isEmpty = false := by
    cases R with
    | nil => exact absurd rfl hR
    | cons a l => rfl
  simp only [parseBackupFileName, hstrip, htake10, hdrop10, hdate, hr1, htime, hr3,
    hbrowser, hr5, hcount, hr7, hrev, hr9, hBe, hCe, hRe, hdate4, hdate4d, hdate6,
    htime2, htime2d, htime4, List.drop_one, List.tail_cons, List.take_succ_cons,
    List.take_zero, List.length_append, hY, hMO, hD, hH, hMI, hSEC, List.all_append,
    hYd, hMOd, hDd, hHd, hMId, hSECd]
  simp [hrev, hr9, hBe, hCe, hRe]

theorem lt_ten_pow_succ (n : Nat) : n < 10 ^ (n + 1) := by
  induction n with
  | zero => norm_num
  | succ k ih =>
    have h2 : 10 ^ (k + 1) < 10 ^ (k + 2) :=
      Nat.pow_lt_pow_right (by norm_num) (by omega)
    omega

theorem toDecStr_ne_nil (n : Nat) : toDecStr n ≠ [] := toDecStrAux_ne_nil n n

theorem toDecStr_parse (n : Nat) : parseDigits (toDecStr n) = n :=
  toDecStrAux_parse (n + 1) n (lt_ten_pow_succ n)

theorem toDecStr_all_digits (n : Nat) : (toDecStr n).all isDigit = true :=
  toDecStrAux_all_digits (n + 1) n (lt_ten_pow_succ n)

theorem toDecStr_length_four (n : Nat) (h1 : 1000 ≤ n) (h2 : n < 10000) :
    (toDecStr n).length = 4 := by
  have hlt := lt_ten_pow_succ n
  have hle : (toDecStr n).length ≤ 4 :=
    (toDecStrAux_length (n + 1) n hlt 4 (by omega)).mpr (by norm_num; omega)
  have hgt : ¬ (toDecStr n).length ≤ 3 := by
    intro hc
    have := (toDecStrAux_length (n + 1) n hlt 3 (by omega)).mp hc
    norm_num at this
    omega
  omega

theorem parseDigits_cons_zero (s : Str) : parseDigits ('0' :: s) = parseDigits s := by
  unfold parseDigits
  rw [List.foldl_cons]
  have h : (0 * 10 + ('0'.toNat - 48)) = 0 := by decide
  rw [h]

theorem pad2_spec (n : Nat) (h : n < 100) :
    (pad2 n).length = 2 ∧ (pad2 n).all isDigit = true ∧ parseDigits (pad2 n) = n := by
  have hlt := lt_ten_pow_succ n
  have hle : (toDecStr n).length ≤ 2 :=
    (toDecStrAux_length (n + 1) n hlt 2 (by omega)).mpr (by norm_num; omega)
  have hpos : 1 ≤ (toDecStr n).length := List.length_pos.mpr (toDecStr_ne_nil n)
  unfold pad2
  by_cases hc : (toDecStr n).length < 2
  · simp only [if_pos hc, List.length_cons, List.all_cons]
    refine ⟨by omega, ?_, ?_⟩
    · rw [toDecStr_all_digits n]
      decide
    · rw [parseDigits_cons_zero, toDecStr_parse]
  · simp only [if_neg hc]
    exact ⟨by omega, toDecStr_all_digits n, toDecStr_parse n⟩

theorem browserSlug_lower (b : Str) (h : b.all isLowerAlpha = true) :
    browserSlug b = b := by
  induction b with
  | nil => rfl
  | cons a l ih =>
    rw [List.all_cons, Bool.and_eq_true] at h
    have ha : 97 ≤ a.toNat ∧ a.toNat ≤ 122 := by
      have := h.1
      unfold isLowerAlpha at this
      rw [Bool.and_eq_true, decide_eq_true_eq, decide_eq_true_eq] at this
      exact this
    have hsp : isJsSpace a = false := by
      unfold isJsSpace
      simp only [Bool.or_eq_false_iff, decide_eq_false_iff_not]
      omega
    have hlo : jsToLower a = a := by
      unfold jsToLower
      rw [if_neg (by omega)]
    unfold browserSlug at ih ⊢
    rw [List.filter_cons_of_pos (by rw [hsp]; rfl)]
    unfold jsToLowerStr at ih ⊢
    rw [List.map_cons, hlo, ih h.2]

/-- C3 counterexample: the parser is not an exact inverse of the generator.
Generating with replica label "Edge" and re-parsing yields label "edge"
(the generator lower-cases the label, the parser does not restore it), and
a regex-valid name with a zero-padded count field parses successfully but
regenerating from its metadata yields a different name. -/
theorem c3_counterexample :
    parseBackupFileName (generateBackupFileName ⟨2026, 1, 27, 14, 30, 52⟩
        "Edge".data 157 3) =
      some ⟨epochMs ⟨2026, 1, 27, 14, 30, 52⟩, "edge".data, 157, 3⟩ ∧
    "edge".data ≠ "Edge".data ∧
    parseBackupFileName "bookmarks_20260127_143052_edge_0157_v3.json".data =
      some ⟨epochMs ⟨2026, 1, 27, 14, 30, 52⟩, "edge".data, 157, 3⟩ ∧
    generateBackupFileName ⟨2026, 1, 27, 14, 30, 52⟩ "edge".data 157 3 ≠
      "bookmarks_20260127_143052_edge_0157_v3.json".data := by
  exact ⟨by decide, by decide, by decide, by decide⟩

/-- C3 (amended): on canonical inputs the round trip holds. For every
in-range clock (four-digit year, two-digit-or-less other fields) and every
nonempty all-lowercase replica label, parsing the generated filename
returns exactly the metadata (timestamp `epochMs` of the clock, the label,
the count and the revision), and regenerating a name from that parsed
metadata at the same clock reproduces the original filename. -/
theorem c3_filename_roundtrip (now : CivilDateTime) (browser : Str)
    (count rev : Nat)
    (hy1 : 1000 ≤ now.year) (hy2 : now.year < 10000) (hmo : now.month < 100)
    (hd : now.day < 100) (hh : now.hour < 100) (hmi : now.minute < 100)
    (hs : now.second < 100) (hb : browser ≠ [])
    (hbl : browser.all isLowerAlpha = true) :
    parseBackupFileName (generateBackupFileName now browser count rev) =
      some ⟨epochMs now, browser, count, rev⟩ ∧
    ∀ m, parseBackupFileName (generateBackupFileName now browser count rev) =
        some m →
      generateBackupFileName now m.browser m.count m.revisionNumber =
        generateBackupFileName now browser count rev := by
  obtain ⟨hmoL, hmoD, hmoP⟩ := pad2_spec now.month hmo
  obtain ⟨hdL, hdD, hdP⟩ := pad2_spec now.day hd
  obtain ⟨hhL, hhD, hhP⟩ := pad2_spec now.hour hh
  obtain ⟨hmiL, hmiD, hmiP⟩ := pad2_spec now.minute hmi
  obtain ⟨hsL, hsD, hsP⟩ := pad2_spec now.second hs
  have hmain : parseBackupFileName (generateBackupFileName now browser count rev) =
      some ⟨epochMs now, browser, count, rev⟩ := by
    unfold generateBackupFileName
    rw [browserSlug_lower browser hbl]
    rw [parse_components (toDecStr now.year) (pad2 now.month) (pad2 now.day)
      (pad2 now.hour) (pad2 now.minute) (pad2 now.second) browser
      (toDecStr count) (toDecStr rev)
      (toDecStr_length_four now.year hy1 hy2) (toDecStr_all_digits now.year)
      hmoL hmoD hdL hdD hhL hhD hmiL hmiD hsL hsD hb hbl
      (toDecStr_ne_nil count) (toDecStr_all_digits count)
      (toDecStr_ne_nil rev) (toDecStr_all_digits rev)]
    rw [toDecStr_parse, toDecStr_parse, toDecStr_parse, hmoP, hdP, hhP, hmiP, hsP]
  refine ⟨hmain, ?_⟩
  intro m hm
  rw [hmain, Option.some_inj] at hm
  rw [← hm]

/-- Witness for `c3_filename_roundtrip` at a concrete clock and label. -/
theorem c3_filename_roundtrip_witness :
    parseBackupFileName (generateBackupFileName ⟨2026, 1, 27, 14, 30, 52⟩
        "edge".data 157 3) =
      some ⟨epochMs ⟨2026, 1, 27, 14, 30, 52⟩, "edge".data, 157, 3⟩ ∧
    ∀ m, parseBackupFileName (generateBackupFileName ⟨2026, 1, 27, 14, 30, 52⟩
        "edge".data 157 3) = some m →
      generateBackupFileName ⟨2026, 1, 27, 14, 30, 52⟩ m.browser m.count
          m.revisionNumber =
        generateBackupFileName ⟨2026, 1, 27, 14, 30, 52⟩ "edge".data 157 3 :=
  c3_filename_roundtrip ⟨2026, 1, 27, 14, 30, 52⟩ "edge".data 157 3
    (by decide) (by decide) (by decide) (by decide) (by decide) (by decide)
    (by decide) (by decide) (by decide)

/-!
## C6, C7: sync lock manager

`SyncLockManager.acquire` from `core/sync/lock-manager.ts` with
`LOCK_TIMEOUT_MS = 60000` from `core/sync/types.ts`.  `acquire` is modelled
as a function of the record read from `browser.storage.local`, the clock,
the freshly generated lock id, and an interference function giving the
store contents seen by the verification re-read after the 50 ms delay
(identity when no concurrent writer runs).  For the concurrency claim the
two concurrent calls are interleaved explicitly: each call is three atomic
steps (read-and-check, write, verify-read), scheduled by a list of
booleans.
-/

structure SyncLock where
  holder : Str
  timestamp : Int
  lockId : Str
deriving DecidableEq

def LOCK_TIMEOUT_MS : Int := 60000

/-- Lines 41–63 of `acquire`: build the new lock, write it, re-read
(`interf` applied to what was written), succeed iff the re-read lock id is
the one just generated. -/
def acquireWrite (holder : Str) (now : Int) (freshId : Str)
    (interf : Option SyncLock → Option SyncLock) : Bool × Option SyncLock :=
  let after := interf (some ⟨holder, now, freshId⟩)
  (decide (after.map SyncLock.lockId = some freshId), after)

/-- `SyncLockManager.acquire`: refuse if a record exists whose age is
strictly below the timeout; otherwise write-and-verify. -/
def acquire (holder : Str) (now : Int) (freshId : Str)
    (store : Option SyncLock)
    (interf : Option SyncLock → Option SyncLock) : Bool × Option SyncLock :=
  match store with
  | some l =>
      if now - l.timestamp < LOCK_TIMEOUT_MS then (false, some l)
      else acquireWrite holder now freshId interf
  | none => acquireWrite holder now freshId interf

/-- One in-flight `acquire` call: its inputs. -/
structure AcqProc where
  holder : Str
  now : Int
  freshId : Str

/-- Shared store plus each call's program counter (0 = about to
read-and-check, 1 = about to write, 2 = about to verify-read, 3 = done)
and result. -/
structure LockWorld where
  store : Option SyncLock
  pcA : Nat
  pcB : Nat
  resA : Option Bool
  resB : Option Bool
deriving DecidableEq

def checkFree (now : Int) (store : Option SyncLock) : Bool :=
  match store with
  | none => true
  | some l => !decide (now - l.timestamp < LOCK_TIMEOUT_MS)

/-- One atomic step of one call. -/
def lockStep (p : AcqProc) (store : Option SyncLock) (pc : Nat)
    (res : Option Bool) : Option SyncLock × Nat × Option Bool :=
  match pc with
  | 0 => if checkFree p.now store then (store, 1, res) else (store, 3, some false)
  | 1 => (some ⟨p.holder, p.now, p.freshId⟩, 2, res)
  | 2 => (store, 3, some (decide (store.map SyncLock.lockId = some p.freshId)))
  | _ => (store, pc, res)

/-- Run an interleaving: `true` in the schedule steps call A, `false`
steps call B. -/
def runLock (pA pB : AcqProc) (sched : List Bool) (w : LockWorld) : LockWorld :=
  match sched with
  | [] => w
  | true :: rest =>
      let s := lockStep pA w.store w.pcA w.resA
      runLock pA pB rest ⟨s.1, s.2.1, w.pcB, s.2.2, w.resB⟩
  | false :: rest =>
      let s := lockStep pB w.store w.pcB w.resB
      runLock pA pB rest ⟨s.1, w.pcA, s.2.1, w.resA, s.2.2⟩

/-- C6: lock-acquisition protocol of `acquire`.  If the stored record's
age is strictly under 60 s, `acquire` returns `false` and the record is
untouched.  If the record is absent or aged at least 60 s, the store
afterwards is whatever the verification re-read sees of the freshly
written record `⟨holder, now, freshId⟩`, and the call returns `true` iff
that re-read record carries exactly the freshly generated lock id. -/
theorem c6_lock_acquire_protocol (holder : Str) (now : Int) (freshId : Str)
    (store : Option SyncLock) (interf : Option SyncLock → Option SyncLock) :
    (∀ l, store = some l → now - l.timestamp < LOCK_TIMEOUT_MS →
      acquire holder now freshId store interf = (false, some l)) ∧
    (store = none ∨ (∃ l, store = some l ∧ LOCK_TIMEOUT_MS ≤ now - l.timestamp) →
      (acquire holder now freshId store interf).2 =
        interf (some ⟨holder, now, freshId⟩) ∧
      ((acquire holder now freshId store interf).1 = true ↔
        (interf (some ⟨holder, now, freshId⟩)).map SyncLock.lockId =
          some freshId)) := by
  constructor
  · intro l hl hage
    subst hl
    simp [acquire, hage]
  · intro h
    have hw : acquire holder now freshId store interf =
        acquireWrite holder now freshId interf := by
      rcases h with h | ⟨l, hl, hage⟩
      · subst h; rfl
      · subst hl
        simp [acquire]
        omega
    rw [hw]
    simp [acquireWrite]

/-- Witness for `c6_lock_acquire_protocol`: a 50 s old record blocks the
call and survives; on an empty store with no interference the call writes
its record and succeeds. -/
theorem c6_lock_acquire_witness :
    acquire "A".data 100000 "idA".data (some ⟨"B".data, 50000, "idB".data⟩)
        (fun s => s) = (false, some ⟨"B".data, 50000, "idB".data⟩) ∧
    ((acquire "A".data 100000 "idA".data none (fun s => s)).2 =
        (fun s => s) (some ⟨"A".data, 100000, "idA".data⟩) ∧
      ((acquire "A".data 100000 "idA".data none (fun s => s)).1 = true ↔
        ((fun (s : Option SyncLock) => s)
            (some ⟨"A".data, 100000, "idA".data⟩)).map SyncLock.lockId =
          some "idA".data)) :=
  ⟨(c6_lock_acquire_protocol "A".data 100000 "idA".data
      (some ⟨"B".data, 50000, "idB".data⟩) (fun s => s)).1
      ⟨"B".data, 50000, "idB".data⟩ rfl (by decide),
   (c6_lock_acquire_protocol "A".data 100000 "idA".data none (fun s => s)).2
      (Or.inl rfl)⟩

/-- C7 counterexample: mutual exclusion fails.  Both calls read the empty
store before either writes; each then writes and verifies while its own
record is the latest, so both return `true`, with overlapping
non-timed-out windows (timestamps 1000 and 1001 ms). -/
theorem c7_counterexample :
    (runLock ⟨"A".data, 1000, "idA".data⟩ ⟨"B".data, 1001, "idB".data⟩
        [true, false, true, true, false, false]
        ⟨none, 0, 0, none, none⟩).resA = some true ∧
    (runLock ⟨"A".data, 1000, "idA".data⟩ ⟨"B".data, 1001, "idB".data⟩
        [true, false, true, true, false, false]
        ⟨none, 0, 0, none, none⟩).resB = some true := by
  exact ⟨by decide, by decide⟩

/-- C7 (amended): the lock-id verification yields mutual exclusion only
when the calls do not interleave between check and verify.  With distinct
fresh ids and overlapping windows: a call that completes alone on an empty
store succeeds; a second call that starts after it completes is refused
while the window is open; and a call whose written record is overwritten
by the rival before its verification re-read returns `false` (the re-read
id mismatch catches that race).  (The interleaving in which each call
verifies before the rival writes defeats the mechanism, per the
counterexample.) -/
theorem c7_serialized_mutual_exclusion (hA hB idA idB : Str)
    (nowA nowB : Int) (hwin : nowB - nowA < LOCK_TIMEOUT_MS)
    (hid : idA ≠ idB) :
    acquire hA nowA idA none (fun s => s) = (true, some ⟨hA, nowA, idA⟩) ∧
    acquire hB nowB idB (some ⟨hA, nowA, idA⟩) (fun s => s) =
      (false, some ⟨hA, nowA, idA⟩) ∧
    acquire hA nowA idA none (fun _ => some ⟨hB, nowB, idB⟩) =
      (false, some ⟨hB, nowB, idB⟩) := by
  have hid2 : idB ≠ idA := Ne.symm hid
  refine ⟨?_, ?_, ?_⟩
  · simp [acquire, acquireWrite]
  · simp [acquire, hwin]
  · simp [acquire, acquireWrite, hid2]

/-- Witness for `c7_serialized_mutual_exclusion` with concrete holders,
clocks 0 and 1 ms, and distinct ids. -/
theorem c7_serialized_mutual_exclusion_witness :
    acquire "A".data 0 "a".data none (fun s => s) =
      (true, some ⟨"A".data, 0, "a".data⟩) ∧
    acquire "B".data 1 "b".data (some ⟨"A".data, 0, "a".data⟩) (fun s => s) =
      (false, some ⟨"A".data, 0, "a".data⟩) ∧
    acquire "A".data 0 "a".data none (fun _ => some ⟨"B".data, 1, "b".data⟩) =
      (false, some ⟨"B".data, 1, "b".data⟩) :=
  c7_serialized_mutual_exclusion "A".data "B".data "a".data "b".data 0 1
    (by decide) (by decide)

/-!
## C5: smartSync decision protocol

`smartSync` from `core/sync/strategies/smart-sync-strategy.ts`, modelled
as a decision function over the values the awaited calls return (network
status, lock outcome, local tree, parsed cloud backup, last sync time),
together with the effect on the local bookmark store: only the pull branch
mutates it (via `smartPull`, abstracted as `pullFn`); delegation to
`smartPush` uploads but never touches the local tree.
-/

inductive SyncDecision where
  | error (msg : Str)
  | delegatePush
  | skipIdentical
  | needsManualChoice
  | pull
  | push
deriving DecidableEq

structure SmartSyncEnv where
  online : Bool
  lockOk : Bool
  localTree : List BNode
  cloudData : Option (List BNode)
  cloudMetaTs : Option Int
  parsedCount : Option Nat
  lastSyncTime : Int

/-- `cloudInfo.totalCount = parsed?.count || countBookmarks(cloudData.data)`
(JS `||`: a parsed count of 0 falls back to the actual count). -/
def cloudTotalCount (parsedCount : Option Nat) (cloudTree : List BNode) : Nat :=
  match parsedCount with
  | some c => if c = 0 then countBookmarks cloudTree else c
  | none => countBookmarks cloudTree

/-- `cloudData.metadata?.timestamp || 0`. -/
def cloudTimeOf (ts : Option Int) : Int :=
  match ts with
  | some t => if t = 0 then 0 else t
  | none => 0

def smartSyncRun (env : SmartSyncEnv) (pullFn : Store → Store) (s : Store) :
    SyncDecision × Store :=
  if !env.online then (.error "网络断开".data, s)
  else if !env.lockOk then (.error "同步正在进行中".data, s)
  else
    match env.cloudData with
    | none => (.delegatePush, s)
    | some cloudTree =>
      if compareWithCloud env.localTree cloudTree then (.skipIdentical, s)
      else if env.lastSyncTime = 0 ∧
          0 < cloudTotalCount env.parsedCount cloudTree then
        (.needsManualChoice, s)
      else if env.lastSyncTime < cloudTimeOf env.cloudMetaTs then (.pull, pullFn s)
      else (.push, s)

theorem cloudTotalCount_pos (pc : Option Nat) (ct : List BNode)
    (h : 0 < countBookmarks ct) : 0 < cloudTotalCount pc ct := by
  unfold cloudTotalCount
  match pc with
  | none => exact h
  | some c =>
    by_cases hc : c = 0
    · simp [hc, h]
    · simp [hc]
      omega

/-- C5: the smartSync decision cascade, in order.  With the network up and
the lock held: no cloud backup delegates to push; an identical comparison
skips; a zero last-sync time with a non-empty remote yields the
needs-manual-choice result and leaves the local store untouched; otherwise
the strategy pulls exactly when the cloud timestamp is strictly newer than
the last sync time and pushes when it is not. -/
theorem c5_smart_sync_protocol (env : SmartSyncEnv) (pullFn : Store → Store)
    (s : Store) (ho : env.online = true) (hl : env.lockOk = true) :
    (env.cloudData = none → smartSyncRun env pullFn s = (.delegatePush, s)) ∧
    (∀ ct, env.cloudData = some ct →
      compareWithCloud env.localTree ct = true →
      smartSyncRun env pullFn s = (.skipIdentical, s)) ∧
    (∀ ct, env.cloudData = some ct →
      compareWithCloud env.localTree ct = false →
      env.lastSyncTime = 0 → 0 < countBookmarks ct →
      smartSyncRun env pullFn s = (.needsManualChoice, s)) ∧
    (∀ ct, env.cloudData = some ct →
      compareWithCloud env.localTree ct = false →
      ¬(env.lastSyncTime = 0 ∧ 0 < cloudTotalCount env.parsedCount ct) →
      ((env.lastSyncTime < cloudTimeOf env.cloudMetaTs →
          smartSyncRun env pullFn s = (.pull, pullFn s)) ∧
        (¬env.lastSyncTime < cloudTimeOf env.cloudMetaTs →
          smartSyncRun env pullFn s = (.push, s)))) := by
  refine ⟨?_, ?_, ?_, ?_⟩
  · intro h
    simp [smartSyncRun, ho, hl, h]
  · intro ct hct hcmp
    simp [smartSyncRun, ho, hl, hct, hcmp]
  · intro ct hct hcmp hz hpos
    simp [smartSyncRun, ho, hl, hct, hcmp, hz,
      cloudTotalCount_pos env.parsedCount ct hpos]
  · intro ct hct hcmp hnm
    constructor
    · intro hlt
      simp [smartSyncRun, ho, hl, hct, hcmp, hnm, hlt]
    · intro hge
      simp [smartSyncRun, ho, hl, hct, hcmp, hnm, hge]

/-- Witness for `c5_smart_sync_protocol` at a concrete first-sync
environment: a non-empty, non-identical remote with last sync time 0 is
routed to needs-manual-choice with the store untouched. -/
theorem c5_smart_sync_witness :
    smartSyncRun
      ⟨true, true, [],
        some [BNode.mk none none none "A".data (some "https://a.com".data) none
          (some "h".data) none],
        some 5, some 1, 0⟩
      (fun s => s) ⟨[], 0⟩ = (.needsManualChoice, ⟨[], 0⟩) :=
  (c5_smart_sync_protocol
      ⟨true, true, [],
        some [BNode.mk none none none "A".data (some "https://a.com".data) none
          (some "h".data) none],
        some 5, some 1, 0⟩
      (fun s => s) ⟨[], 0⟩ rfl rfl).2.2.1
    [BNode.mk none none none "A".data (some "https://a.com".data) none
      (some "h".data) none]
    rfl (by decide) rfl (by decide)

/-!
## C9: smartPush refuses an empty local tree

`smartPush` from `core/sync/strategies/push-strategy.ts`, modelled over an
explicit world (remote file paths, last-backup-file record, sync state,
local snapshot count) and an environment holding the values the awaited
calls return.  The guard order of the source is kept: offline check, lock,
then the `localCount === 0` check, and only after it the snapshot, the
cloud comparison, the window-replace file logic, the upload, and the
sync-state update.  `cleanOldBackups` is abstracted by the `keepOld`
predicate of the environment; all `Date.now()` reads are `nowMs`.
-/

structure PushResult where
  success : Bool
  action : Str
  message : Str
deriving DecidableEq

structure BackupFileInfo where
  fileName : Str
  filePath : Str
  createdAt : Int
  revisionNumber : Nat
deriving DecidableEq

structure PushWorld where
  remotePaths : List Str
  lastBackupInfo : Option BackupFileInfo
  syncState : Option (Int × Str)
  snapshots : Nat
deriving DecidableEq

structure PushEnv where
  online : Bool
  lockOk : Bool
  localTree : List BNode
  cloudLatest : Option (List BNode × Int)
  lastSyncTime : Int
  isManual : Bool
  browserMatch : Bool
  nowMs : Int
  clock : CivilDateTime
  browserName : Str
  backupIntervalMs : Int
  keepOld : Str → Bool

/-- `client.putFile` on the path set: create or overwrite. -/
def putPath (paths : List Str) (p : Str) : List Str :=
  if paths.contains p then paths else paths ++ [p]

/-- Steps 3–5 of `smartPush` (upload path): window-replace or new file,
upload, save the last-backup-file record, clean old backups when a new
file was created, set the sync state. -/
def pushUpload (env : PushEnv) (w1 : PushWorld) : PushResult × PushWorld :=
  let bookmarkCount := countBookmarks env.localTree
  let step :=
    match w1.lastBackupInfo with
    | some info =>
      if env.nowMs - info.createdAt < env.backupIntervalMs then
        (generateBackupFileName env.clock env.browserName bookmarkCount
            (info.revisionNumber + 1),
          info.createdAt, info.revisionNumber + 1, false,
          w1.remotePaths.filter (fun p => !(p == info.filePath)))
      else
        (generateBackupFileName env.clock env.browserName bookmarkCount 1,
          env.nowMs, 1, true, w1.remotePaths)
    | none =>
      (generateBackupFileName env.clock env.browserName bookmarkCount 1,
        env.nowMs, 1, true, w1.remotePaths)
  match step with
  | (fileName, createdAt, revisionNumber, isNewFile, remote1) =>
    let finalName := fileName ++ ".gz".data
    let path := "BookmarkSyncer/".data ++ fileName ++ ".gz".data
    let remote2 := putPath remote1 path
    let remote3 := if isNewFile then remote2.filter env.keepOld else remote2
    (⟨true, "uploaded".data, "上传成功".data⟩,
      ⟨remote3, some ⟨finalName, path, createdAt, revisionNumber⟩,
        some (env.nowMs, "upload".data), w1.snapshots⟩)

def smartPushRun (env : PushEnv) (w : PushWorld) : PushResult × PushWorld :=
  if !env.online then (⟨false, "error".data, "网络断开".data⟩, w)
  else if !env.lockOk then (⟨false, "error".data, "同步正在进行中".data⟩, w)
  else if countBookmarks env.localTree = 0 then
    (⟨false, "error".data, "本地书签为空".data⟩, w)
  else
    let w1 : PushWorld :=
      ⟨w.remotePaths, w.lastBackupInfo, w.syncState, w.snapshots + 1⟩
    let check : Option (PushResult × PushWorld) :=
      match env.cloudLatest with
      | some (cloudTree, cloudTime) =>
        if env.lastSyncTime < cloudTime ∧ env.isManual = false then
          some (⟨false, "error".data, "云端有更新，请先拉取".data⟩, w1)
        else if compareWithCloud env.localTree cloudTree then
          if env.isManual && env.browserMatch then none
          else
            some (⟨true, "skipped".data, "书签已同步，无需更新".data⟩,
              ⟨w1.remotePaths, w1.lastBackupInfo,
                some (env.nowMs, "skip_identical".data), w1.snapshots⟩)
        else none
      | none => none
    match check with
    | some r => r
    | none => pushUpload env w1

/-- C9: whenever the local tree holds zero bookmarks, `smartPush` returns
success `false` with action `"error"`, and the world — remote files,
last-backup-file record, sync state, snapshots — is exactly the one it
started with (the empty-tree guard runs before the snapshot, any remote
read or write, and the sync-state update). -/
theorem c9_push_refuses_empty_tree (env : PushEnv) (w : PushWorld)
    (h : countBookmarks env.localTree = 0) :
    (smartPushRun env w).1.success = false ∧
    (smartPushRun env w).1.action = "error".data ∧
    (smartPushRun env w).2 = w := by
  unfold smartPushRun
  by_cases ho : env.online
  · by_cases hl : env.lockOk
    · simp [ho, hl, h]
    · simp [ho, hl]
  · simp [ho]

/-- Witness for `c9_push_refuses_empty_tree`: an online, locked push over
an empty local tree and a populated world is refused and changes
nothing. -/
theorem c9_push_refuses_empty_tree_witness :
    (smartPushRun
        ⟨true, true, [], none, 0, false, false, 5, ⟨2026, 1, 27, 14, 30, 52⟩,
          "edge".data, 600000, fun p => !(p == [])⟩
        ⟨["BookmarkSyncer/a.json.gz".data], none, some (3, "upload".data),
          2⟩).1.success = false ∧
    (smartPushRun
        ⟨true, true, [], none, 0, false, false, 5, ⟨2026, 1, 27, 14, 30, 52⟩,
          "edge".data, 600000, fun p => !(p == [])⟩
        ⟨["BookmarkSyncer/a.json.gz".data], none, some (3, "upload".data),
          2⟩).1.action = "error".data ∧
    (smartPushRun
        ⟨true, true, [], none, 0, false, false, 5, ⟨2026, 1, 27, 14, 30, 52⟩,
          "edge".data, 600000, fun p => !(p == [])⟩
        ⟨["BookmarkSyncer/a.json.gz".data], none, some (3, "upload".data),
          2⟩).2 =
      ⟨["BookmarkSyncer/a.json.gz".data], none, some (3, "upload".data), 2⟩ :=
  c9_push_refuses_empty_tree
    ⟨true, true, [], none, 0, false, false, 5, ⟨2026, 1, 27, 14, 30, 52⟩,
      "edge".data, 600000, fun p => !(p == [])⟩
    ⟨["BookmarkSyncer/a.json.gz".data], none, some (3, "upload".data), 2⟩
    (by decide)
